import Mathlib

/-!
Verification of the nvx-go-helper repository: a shallow embedding of the
generic concurrent worker pool (`worker.RunGenericWorkerPoolStream`) and of
the Argon2-based key-derivation helpers (`cryptoutil.DeriveKey` /
`cryptoutil.CompareKey`), together with proofs of the specified properties.

The worker pool is embedded as an executable small-step state machine: one
feeder, `NumWorkers` workers, an optional external semaphore, a `sync.Map`
based result sink and a batch cancellation signal.  Concurrency is modelled
by explicit schedules (lists of actions); each action is one atomic step of
one goroutine, and the step function is total (an action whose guard does
not hold leaves the state unchanged).  The synchronous pre-flight part of
`RunGenericWorkerPoolStream` (empty batch, duplicate IDs, already-cancelled
parent context, configuration defaulting) is embedded as pure functions.
-/

namespace Worker

/-- model of `worker.Job[T]`: the payload is reduced to a `Nat` key that is
fed to the behaviour oracle standing for `workerFunc`. -/
structure Job where
  id : Nat
  data : Nat
deriving DecidableEq

/-- The error component of a `worker.Result`: `skipped` is `ErrSkipped`,
`panicked m` is the `fmt.Errorf("panic: %v", r)` error produced by the
recover handler, `opErr c` is an error returned by `workerFunc`, and
`dupId d` is the `"duplicate job ID detected"` rejection error. -/
inductive WErr where
  | skipped
  | panicked (m : Nat)
  | opErr (code : Nat)
  | dupId (d : Nat)
deriving DecidableEq

/-- model of `worker.Result[R]` (value type reduced to `Nat`, zero value 0). -/
structure Result where
  id : Nat
  value : Nat
  err : Option WErr
deriving DecidableEq

/-- What one invocation of the user supplied `workerFunc` does for a given
payload: return a value, return an error (with a partial value, as Go
permits), or terminate abnormally. -/
inductive OpBehavior where
  | ok (v : Nat)
  | fail (v : Nat) (code : Nat)
  | panics (m : Nat)
deriving DecidableEq

/-- Returns `true` when the invocation is a failure (returned error or abnormal
termination), the condition under which `StopOnError` escalates. -/
def opFails : OpBehavior → Bool
  | .ok _ => false
  | .fail _ _ => true
  | .panics _ => true

/-- The `Result` that the worker body sends for job `j` when `workerFunc`
behaves as `b` (normal return or contained panic). -/
def opOutcome (j : Job) : OpBehavior → Result
  | .ok v => ⟨j.id, v, none⟩
  | .fail v c => ⟨j.id, v, some (.opErr c)⟩
  | .panics m => ⟨j.id, 0, some (.panicked m)⟩

/-- model of `worker.WorkerPoolConfig`; durations are int64 nanoseconds. -/
structure WorkerPoolConfig where
  numWorkers : Int
  workerTimeout : Int
  globalTimeout : Int
  stopOnError : Bool
deriving DecidableEq

/-- one second in nanoseconds (`time.Second`). -/
def timeSecond : Int := 1000000000

/-- two's-complement wrap-around of a mathematical integer into int64, the
semantics of Go arithmetic on `time.Duration`. -/
def wrap64 (n : Int) : Int :=
  (n + 9223372036854775808) % 18446744073709551616 - 9223372036854775808

/-- The configuration-defaulting block of `RunGenericWorkerPoolStream`
(lines 103-123): default `NumWorkers` to 2, `GlobalTimeout` to 30s,
`WorkerTimeout` to 15s capped at `GlobalTimeout`, then raise
`GlobalTimeout` to `WorkerTimeout * 2` (int64 multiplication, hence
`wrap64`) if it is below `WorkerTimeout`. -/
def resolveConfig (cfg0 : WorkerPoolConfig) : WorkerPoolConfig :=
  let cfg1 := if cfg0.numWorkers ≤ 0 then { cfg0 with numWorkers := 2 } else cfg0
  let cfg2 := if cfg1.globalTimeout ≤ 0 then { cfg1 with globalTimeout := 30 * timeSecond } else cfg1
  let cfg3 :=
    if cfg2.workerTimeout ≤ 0 then
      let cfgA := { cfg2 with workerTimeout := 15 * timeSecond }
      if cfgA.workerTimeout > cfgA.globalTimeout then
        { cfgA with workerTimeout := cfgA.globalTimeout }
      else cfgA
    else cfg2
  if cfg3.globalTimeout < cfg3.workerTimeout then
    { cfg3 with globalTimeout := wrap64 (cfg3.workerTimeout * 2) }
  else cfg3

/-- The duplicate-ID scan of `RunGenericWorkerPoolStream` (lines 72-87):
walk the jobs with a set of seen IDs and report the first repeated ID. -/
def findDup (seen : List Nat) : List Job → Option Nat
  | [] => none
  | j :: rest => if j.id ∈ seen then some j.id else findDup (j.id :: seen) rest

/-- The state of one worker goroutine: blocked at `for job := range jobCh`
(`waiting`), holding a received job before the context check (`hasJob`),
blocked on the external semaphore (`acquiring`), inside the critical
section with the semaphore token held (`holding`), or exited (`exited`). -/
inductive WPhase where
  | waiting
  | hasJob (j : Job)
  | acquiring (j : Job)
  | holding (j : Job)
  | exited
deriving DecidableEq

/-- The run-scoped state of one invocation of the pool. -/
structure PoolState where
  /-- jobs the feeder has not yet offered or skipped -/
  pending : List Job
  /-- `close(jobCh)` has run -/
  jobChClosed : Bool
  /-- the feeder goroutine has returned (`feederWG` done) -/
  feederDone : Bool
  /-- phase of each worker goroutine -/
  workers : List WPhase
  /-- `poolCtx.Done()` is closed (timeout, parent cancel or `cancelPool`) -/
  cancelled : Bool
  /-- the `sync.Once` guarding `cancelPool` has been consumed -/
  onceUsed : Bool
  /-- number of times `cancelOnce.Do` actually ran its body -/
  onceBodyRuns : Nat
  /-- free tokens of the external `globalSemaphore` channel -/
  semFree : Nat
  /-- IDs recorded in the `sentResults` sync.Map, in insertion order -/
  sent : List Nat
  /-- contents of `outCh`, in send order -/
  out : List Result
  /-- `close(outCh)` has run -/
  outClosed : Bool
  /-- number of invocations of `workerFunc` -/
  invocations : Nat
deriving DecidableEq

/-- Model of `sendResult` (lines 141-145): `sentResults.LoadOrStore(result.ID, true)`
is an atomic per-ID test-and-set; only the first send for an ID reaches
`outCh`, every later one is dropped. -/
def sendResult (r : Result) (s : PoolState) : PoolState :=
  if r.id ∈ s.sent then s
  else { s with sent := s.sent ++ [r.id], out := s.out ++ [r] }

/-- Model of `safeCancelPool` (lines 130-135): `cancelOnce.Do(cancelPool)`. -/
def safeCancelPool (s : PoolState) : PoolState :=
  if s.onceUsed then s
  else { s with onceUsed := true, onceBodyRuns := s.onceBodyRuns + 1, cancelled := true }

/-- One atomic step of one goroutine of the pool. -/
inductive Action where
  /-- feeder: `jobCh <- job` rendezvous with worker `w` -/
  | feedHand (w : Nat)
  /-- feeder: `<-poolCtx.Done()` branch, skip the current job -/
  | feedSkip
  /-- feeder: loop finished, `close(jobCh)` and return -/
  | feedClose
  /-- worker `w`: the `select`/`default` context check after receiving a job -/
  | checkCtx (w : Nat)
  /-- worker `w`: `globalSemaphore <- struct\x7b\x7d{}` succeeds -/
  | acquireSem (w : Nat)
  /-- worker `w`: `<-poolCtx.Done()` wins the semaphore race -/
  | acquireCancel (w : Nat)
  /-- worker `w`: run `workerFunc` under the deferred recover handler,
  release the semaphore token and send the outcome -/
  | runOp (w : Nat)
  /-- worker `w`: `range jobCh` ends because the channel is closed -/
  | workerExit (w : Nat)
  /-- the global timeout (or the parent context) fires -/
  | timeoutFire
  /-- finalizer: feeder and workers done, `cancelPool()` and `close(outCh)` -/
  | finalize
deriving DecidableEq

/-- Total step function: the action's guard is checked and an action that is
not enabled leaves the state unchanged. -/
def step (behav : Nat → OpBehavior) (hasSem stopOnError : Bool)
    (s : PoolState) : Action → PoolState
  | .feedHand w =>
      match s.pending with
      | [] => s
      | j :: rest =>
          match s.workers.get? w with
          | some .waiting =>
              { s with pending := rest, workers := s.workers.set w (.hasJob j) }
          | _ => s
  | .feedSkip =>
      if s.cancelled then
        match s.pending with
        | [] => s
        | j :: rest => sendResult ⟨j.id, 0, some .skipped⟩ { s with pending := rest }
      else s
  | .feedClose =>
      if s.pending.isEmpty && !s.feederDone then
        { s with jobChClosed := true, feederDone := true }
      else s
  | .checkCtx w =>
      match s.workers.get? w with
      | some (.hasJob j) =>
          if s.cancelled then
            sendResult ⟨j.id, 0, some .skipped⟩ { s with workers := s.workers.set w .waiting }
          else if hasSem then { s with workers := s.workers.set w (.acquiring j) }
          else { s with workers := s.workers.set w (.holding j) }
      | _ => s
  | .acquireSem w =>
      match s.workers.get? w with
      | some (.acquiring j) =>
          if 0 < s.semFree then
            { s with semFree := s.semFree - 1, workers := s.workers.set w (.holding j) }
          else s
      | _ => s
  | .acquireCancel w =>
      match s.workers.get? w with
      | some (.acquiring j) =>
          if s.cancelled then
            sendResult ⟨j.id, 0, some .skipped⟩ { s with workers := s.workers.set w .waiting }
          else s
      | _ => s
  | .runOp w =>
      match s.workers.get? w with
      | some (.holding j) =>
          let s1 := { s with invocations := s.invocations + 1,
                             semFree := if hasSem then s.semFree + 1 else s.semFree,
                             workers := s.workers.set w .waiting }
          match behav j.data with
          | .ok v => sendResult ⟨j.id, v, none⟩ s1
          | .fail v c =>
              let s2 := if stopOnError then safeCancelPool s1 else s1
              sendResult ⟨j.id, v, some (.opErr c)⟩ s2
          | .panics m =>
              let s2 := sendResult ⟨j.id, 0, some (.panicked m)⟩ s1
              if stopOnError then safeCancelPool s2 else s2
      | _ => s
  | .workerExit w =>
      match s.workers.get? w with
      | some .waiting =>
          if s.jobChClosed then { s with workers := s.workers.set w .exited } else s
      | _ => s
  | .timeoutFire => { s with cancelled := true }
  | .finalize =>
      if s.feederDone && s.workers.all (fun ph => ph == WPhase.exited) && !s.outClosed then
        { s with cancelled := true, outClosed := true }
      else s

/-- Run a schedule of atomic steps. -/
def exec (behav : Nat → OpBehavior) (hasSem stopOnError : Bool) :
    PoolState → List Action → PoolState
  | s, [] => s
  | s, a :: rest => exec behav hasSem stopOnError (step behav hasSem stopOnError s a) rest

/-- The state right after the pre-flight checks pass: all jobs pending, all
workers at the channel receive, nothing cancelled, nothing sent. -/
def initState (jobs : List Job) (numWorkers semInit : Nat) : PoolState :=
  { pending := jobs
    jobChClosed := false
    feederDone := false
    workers := List.replicate numWorkers .waiting
    cancelled := false
    onceUsed := false
    onceBodyRuns := 0
    semFree := semInit
    sent := []
    out := []
    outClosed := false
    invocations := 0 }

/-- The state after running schedule `sched` on a fresh pool for `jobs`. -/
def runMachine (behav : Nat → OpBehavior) (hasSem stopOnError : Bool)
    (jobs : List Job) (numWorkers semInit : Nat) (sched : List Action) : PoolState :=
  exec behav hasSem stopOnError (initState jobs numWorkers semInit) sched

/-- What the synchronous part of `RunGenericWorkerPoolStream` does before
any goroutine is spawned. -/
inductive PoolOutput where
  /-- empty batch: a fresh channel is closed and returned at once -/
  | emptyClosed
  /-- duplicate job ID: a buffered channel that one emitter goroutine fills
  with one rejection failure per job, then closes -/
  | rejectDup (out : List Result)
  /-- parent context already done: a buffered channel that one emitter
  goroutine fills with one skipped outcome per job, then closes -/
  | skippedAll (out : List Result)
  /-- pre-flight passed: the pool proper starts with the resolved config -/
  | proceed (cfg : WorkerPoolConfig)
deriving DecidableEq

/-- The pre-flight part of `RunGenericWorkerPoolStream` (lines 66-123):
empty-batch check, duplicate-ID scan, parent-context check, then
configuration defaulting. -/
def RunGenericWorkerPoolStream (ctxDone : Bool) (jobs : List Job)
    (cfg : WorkerPoolConfig) : PoolOutput :=
  if jobs.isEmpty then .emptyClosed
  else
    match findDup [] jobs with
    | some d => .rejectDup (jobs.map fun j => ⟨j.id, 0, some (.dupId d)⟩)
    | none =>
        if ctxDone then .skippedAll (jobs.map fun j => ⟨j.id, 0, some .skipped⟩)
        else .proceed (resolveConfig cfg)

/-- Everything the caller can observe of one invocation: the outcomes, the
final channel state, the number of `workerFunc` invocations and the number
of goroutines of each kind that were spawned. -/
structure FullOut where
  out : List Result
  closed : Bool
  invocations : Nat
  workersSpawned : Nat
  feedersSpawned : Nat
  finalizersSpawned : Nat
  emittersSpawned : Nat
deriving DecidableEq

/-- One whole invocation of `RunGenericWorkerPoolStream`: the pre-flight
paths deliver their outcomes with zero `workerFunc` invocations and no
worker/feeder/finalizer goroutine; the concurrent path runs the state
machine under schedule `sched`. -/
def runFull (ctxDone : Bool) (jobs : List Job) (cfg : WorkerPoolConfig)
    (behav : Nat → OpBehavior) (hasSem : Bool) (semInit : Nat)
    (sched : List Action) : FullOut :=
  match RunGenericWorkerPoolStream ctxDone jobs cfg with
  | .emptyClosed => ⟨[], true, 0, 0, 0, 0, 0⟩
  | .rejectDup out => ⟨out, true, 0, 0, 0, 0, 1⟩
  | .skippedAll out => ⟨out, true, 0, 0, 0, 0, 1⟩
  | .proceed rcfg =>
      let s := runMachine behav hasSem rcfg.stopOnError jobs rcfg.numWorkers.toNat semInit sched
      ⟨s.out, s.outClosed, s.invocations, rcfg.numWorkers.toNat, 1, 1, 0⟩

/-- The job IDs held by a worker in a given phase. -/
def phaseIds : WPhase → List Nat
  | .hasJob j => [j.id]
  | .acquiring j => [j.id]
  | .holding j => [j.id]
  | _ => []

/-- All job IDs currently held by workers. -/
def activeIds (s : PoolState) : List Nat := s.workers.flatMap phaseIds

/-- 1 for a worker inside the critical section (semaphore token held). -/
def holdWeight : WPhase → Nat
  | .holding _ => 1
  | _ => 0

/-- Number of workers currently inside the critical section. -/
def holdingCount (s : PoolState) : Nat := (s.workers.map holdWeight).sum

/-- The run invariant: every job ID is in exactly one place (feeder queue,
a worker's hands, or the sink), the output stream mirrors the sink, the
`sync.Once` body ran at most once, closing happened only after feeder and
workers finished, and the semaphore tokens are balanced. -/
structure Inv (jobs : List Job) (hasSem : Bool) (semInit : Nat) (s : PoolState) : Prop where
  perm : ((jobs.map Job.id : List Nat) : Multiset Nat) =
    ((s.pending.map Job.id : List Nat) : Multiset Nat) + (activeIds s : Multiset Nat) + (s.sent : Multiset Nat)
  outIds : s.out.map Result.id = s.sent
  fdone : s.feederDone = true → s.pending = []
  onceEq : s.onceBodyRuns = if s.onceUsed then 1 else 0
  onceCan : s.onceUsed = true → s.cancelled = true
  closedInv : s.outClosed = true → s.feederDone = true ∧ ∀ ph ∈ s.workers, ph = WPhase.exited
  semBal : hasSem = true → s.semFree + holdingCount s = semInit

end Worker

namespace Cryptoutil

/-- The base64 standard alphabet as ASCII codes
(`A-Z`, `a-z`, `0-9`, `+`, `/`), the table behind
`base64.StdEncoding`. -/
def b64Table : List Nat :=
  [65, 66, 67, 68, 69, 70, 71, 72, 73, 74, 75, 76, 77, 78, 79, 80, 81, 82,
   83, 84, 85, 86, 87, 88, 89, 90,
   97, 98, 99, 100, 101, 102, 103, 104, 105, 106, 107, 108, 109, 110, 111,
   112, 113, 114, 115, 116, 117, 118, 119, 120, 121, 122,
   48, 49, 50, 51, 52, 53, 54, 55, 56, 57, 43, 47]

/-- Encode one 6-bit group as its base64 character (ASCII code). -/
def encChar (v : Nat) : Nat := b64Table.getD v 0

/-- Decode one base64 character back to its 6-bit group. -/
def decChar (c : Nat) : Option Nat := b64Table.findIdx? (fun x => x == c)

/-- model of `base64.StdEncoding.EncodeToString`: bytes in, ASCII codes of
the padded base64 text out. 61 is `=`. -/
def b64encode : List Nat → List Nat
  | [] => []
  | [a] => [encChar (a / 4), encChar (a % 4 * 16), 61, 61]
  | [a, b] => [encChar (a / 4), encChar (a % 4 * 16 + b / 16), encChar (b % 16 * 4), 61]
  | a :: b :: c :: rest =>
      encChar (a / 4) :: encChar (a % 4 * 16 + b / 16) ::
      encChar (b % 16 * 4 + c / 64) :: encChar (c % 64) :: b64encode rest

/-- model of `base64.StdEncoding.DecodeString`: quantum of four characters
at a time, `=` padding allowed only in the final quantum, any character
outside the alphabet rejected (`none` is the decode error). -/
def b64decode : List Nat → Option (List Nat)
  | [] => some []
  | c1 :: c2 :: c3 :: c4 :: rest =>
      if c3 = 61 then
        if c4 = 61 ∧ rest = [] then
          match decChar c1, decChar c2 with
          | some v1, some v2 => some [v1 * 4 + v2 / 16]
          | _, _ => none
        else none
      else if c4 = 61 then
        if rest = [] then
          match decChar c1, decChar c2, decChar c3 with
          | some v1, some v2, some v3 =>
              some [v1 * 4 + v2 / 16, v2 % 16 * 16 + v3 / 4]
          | _, _, _ => none
        else none
      else
        match decChar c1, decChar c2, decChar c3, decChar c4, b64decode rest with
        | some v1, some v2, some v3, some v4, some tail =>
            some ((v1 * 4 + v2 / 16) :: (v2 % 16 * 16 + v3 / 4) ::
                  (v3 % 4 * 64 + v4) :: tail)
        | _, _, _, _, _ => none
  | _ => none

/-- The salt bytes used by `DeriveKey`: decode the salt from base64, and if
that fails use the raw salt bytes as-is. -/
def saltBytesOf (salt : List Nat) : List Nat :=
  match b64decode salt with
  | some bs => bs
  | none => salt

/-- model of `cryptoutil.DeriveKey`.  Strings are byte lists; the external
`argon2.IDKey` primitive is taken as an explicit function parameter
`idKey` (its arguments in source order: password bytes, salt bytes, time,
memory, threads, keyLen), since only its determinism matters here. -/
def DeriveKey (idKey : List Nat → List Nat → Nat → Nat → Nat → Nat → List Nat)
    (password salt : List Nat) (time memory : Nat) (threads : Nat) (keyLen : Nat) :
    List Nat :=
  if keyLen = 0 then []
  else b64encode (idKey password (saltBytesOf salt) time memory threads keyLen)

/-- model of `subtle.ConstantTimeCompare`: 0 on length mismatch, otherwise
or-accumulate the xor of the byte pairs and test the accumulator. -/
def constantTimeCompare (x y : List Nat) : Nat :=
  if x.length ≠ y.length then 0
  else if ((x.zip y).foldl (fun acc p => acc ||| (p.1 ^^^ p.2)) 0) = 0 then 1 else 0

/-- model of `cryptoutil.CompareKey`: derive again, base64-decode both the
derived and the expected key, fail on either decode error, else compare in
constant time. -/
def CompareKey (idKey : List Nat → List Nat → Nat → Nat → Nat → Nat → List Nat)
    (password salt expectedKey : List Nat) (time memory : Nat) (threads : Nat)
    (keyLen : Nat) : Bool :=
  let derivedKey := DeriveKey idKey password salt time memory threads keyLen
  match b64decode derivedKey, b64decode expectedKey with
  | some derivedBytes, some expectedBytes =>
      constantTimeCompare derivedBytes expectedBytes == 1
  | _, _ => false

end Cryptoutil

namespace Cryptoutil

/-- Every 6-bit group decodes back from its base64 character. -/
lemma decChar_encChar : ∀ v < 64, decChar (encChar v) = some v := by decide

/-- No base64 alphabet character is the padding character. -/
lemma encChar_ne_pad : ∀ v < 64, encChar v ≠ 61 := by decide

/-- Encoding round-trips under `base64.StdEncoding`: decoding an encoded byte list always
succeeds and returns the original bytes. -/
lemma b64_roundtrip : ∀ (bs : List Nat), (∀ b ∈ bs, b < 256) →
    b64decode (b64encode bs) = some bs := by
  intro bs
  induction bs using b64encode.induct with
  | case1 => intro _; rfl
  | case2 a =>
      intro h
      have ha : a < 256 := h a (by simp)
      simp only [b64encode, b64decode]
      rw [decChar_encChar (a / 4) (by omega), decChar_encChar (a % 4 * 16) (by omega)]
      simp
      omega
  | case3 a b =>
      intro h
      have ha : a < 256 := h a (by simp)
      have hb : b < 256 := h b (by simp)
      simp only [b64encode, b64decode]
      rw [if_neg (encChar_ne_pad (b % 16 * 4) (by omega))]
      rw [decChar_encChar (a / 4) (by omega),
        decChar_encChar (a % 4 * 16 + b / 16) (by omega),
        decChar_encChar (b % 16 * 4) (by omega)]
      simp
      omega
  | case4 a b c rest ih =>
      intro h
      have ha : a < 256 := h a (by simp)
      have hb : b < 256 := h b (by simp)
      have hc : c < 256 := h c (by simp)
      have hrest : ∀ x ∈ rest, x < 256 := fun x hx => h x (by simp [hx])
      simp only [b64encode, b64decode]
      rw [if_neg (encChar_ne_pad (b % 16 * 4 + c / 64) (by omega)),
        if_neg (encChar_ne_pad (c % 64) (by omega))]
      rw [decChar_encChar (a / 4) (by omega),
        decChar_encChar (a % 4 * 16 + b / 16) (by omega),
        decChar_encChar (b % 16 * 4 + c / 64) (by omega),
        decChar_encChar (c % 64) (by omega), ih hrest]
      simp
      omega

/-- Xoring each byte with itself and or-accumulating yields zero. -/
lemma foldl_or_xor_self (l : List Nat) :
    ((l.zip l).foldl (fun acc p => acc ||| (p.1 ^^^ p.2)) 0) = 0 := by
  induction l with
  | nil => rfl
  | cons a tl ih => simpa using ih

/-- Comparison via `subtle.ConstantTimeCompare` reports equality on identical inputs. -/
lemma constantTimeCompare_self (x : List Nat) : constantTimeCompare x x = 1 := by
  unfold constantTimeCompare
  rw [if_neg (by simp), if_pos (foldl_or_xor_self x)]

end Cryptoutil

namespace Worker

/-- Wrapping by `wrap64` is the identity inside the int64 range. -/
lemma wrap64_eq_self (n : Int) (h1 : -9223372036854775808 ≤ n)
    (h2 : n < 9223372036854775808) : wrap64 n = n := by
  unfold wrap64
  omega

/-- A `none` answer of the duplicate scan means the remaining IDs are
distinct and avoid everything already seen. -/
lemma findDup_none_nodup : ∀ (l : List Job) (seen : List Nat),
    findDup seen l = none →
    (l.map Job.id).Nodup ∧ ∀ x ∈ seen, x ∉ l.map Job.id := by
  intro l
  induction l with
  | nil => intro seen _; exact ⟨List.nodup_nil, by simp⟩
  | cons j rest ih =>
      intro seen h
      unfold findDup at h
      by_cases hj : j.id ∈ seen
      · rw [if_pos hj] at h
        exact absurd h (by simp)
      · rw [if_neg hj] at h
        obtain ⟨hnd, hdisj⟩ := ih (j.id :: seen) h
        have hjid : j.id ∉ rest.map Job.id := hdisj j.id (by simp)
        refine ⟨by simp [hnd, hjid], ?_⟩
        intro x hx
        simp only [List.map_cons, List.mem_cons]
        push_neg
        exact ⟨fun he => hj (he ▸ hx), hdisj x (by simp [hx])⟩

/-- The duplicate scan accepts a list of distinct IDs that avoids the seen
set. -/
lemma findDup_none_of_nodup : ∀ (l : List Job) (seen : List Nat),
    (l.map Job.id).Nodup → (∀ x ∈ seen, x ∉ l.map Job.id) →
    findDup seen l = none := by
  intro l
  induction l with
  | nil => intro seen _ _; rfl
  | cons j rest ih =>
      intro seen hnd hdisj
      unfold findDup
      have hj : j.id ∉ seen := fun hin => hdisj j.id hin (by simp)
      rw [if_neg hj]
      simp only [List.map_cons, List.nodup_cons] at hnd
      refine ih (j.id :: seen) hnd.2 ?_
      intro x hx
      rcases List.mem_cons.mp hx with he | hs
      · exact he ▸ hnd.1
      · exact fun hm => hdisj x hs (by simp [hm])

/-- A repeated ID makes the duplicate scan report some duplicate. -/
lemma findDup_some_of_not_nodup (jobs : List Job)
    (h : ¬ (jobs.map Job.id).Nodup) : ∃ d, findDup [] jobs = some d := by
  cases hfd : findDup [] jobs with
  | none => exact absurd (findDup_none_nodup jobs [] hfd).1 h
  | some d => exact ⟨d, rfl⟩

end Worker

namespace Worker

/-- An indexed worker phase is a member of the worker list. -/
lemma mem_of_get : ∀ (ws : List WPhase) (w : Nat) (ph : WPhase),
    ws.get? w = some ph → ph ∈ ws := by
  intro ws
  induction ws with
  | nil => intro w ph h; simp at h
  | cons hd tl ih =>
      intro w ph h
      cases w with
      | zero => simp only [List.get?_cons_zero, Option.some.injEq] at h; simp [h]
      | succ n =>
          simp only [List.get?_cons_succ] at h
          exact List.mem_cons_of_mem hd (ih n ph h)

/-- Updating an indexed worker phase updates the lookup. -/
lemma get_set_self : ∀ (ws : List WPhase) (w : Nat) (ph ph' : WPhase),
    ws.get? w = some ph → (ws.set w ph').get? w = some ph' := by
  intro ws
  induction ws with
  | nil => intro w ph ph' h; simp at h
  | cons hd tl ih =>
      intro w ph ph' h
      cases w with
      | zero => rfl
      | succ n =>
          simp only [List.get?_cons_succ] at h
          simp only [List.set_cons_succ, List.get?_cons_succ]
          exact ih n ph ph' h

/-- Splitting the flattened held-ID list around one indexed worker: the
surrounding parts are unchanged by updating that worker's phase. -/
lemma flatMap_set_split : ∀ (ws : List WPhase) (w : Nat) (ph : WPhase),
    ws.get? w = some ph →
    ∃ A B, ws.flatMap phaseIds = A ++ (phaseIds ph ++ B) ∧
      ∀ ph', (ws.set w ph').flatMap phaseIds = A ++ (phaseIds ph' ++ B) := by
  intro ws
  induction ws with
  | nil => intro w ph h; simp at h
  | cons hd tl ih =>
      intro w ph h
      cases w with
      | zero =>
          simp only [List.get?_cons_zero, Option.some.injEq] at h
          subst h
          exact ⟨[], tl.flatMap phaseIds, by simp, fun ph' => by simp⟩
      | succ n =>
          simp only [List.get?_cons_succ] at h
          obtain ⟨A, B, h1, h2⟩ := ih n ph h
          refine ⟨phaseIds hd ++ A, B, ?_, fun ph' => ?_⟩
          · simp [h1]
          · simp [h2 ph']

/-- Updating one worker's phase shifts a summed phase weight by the
difference of the weights. -/
lemma sum_map_set (f : WPhase → Nat) : ∀ (ws : List WPhase) (w : Nat) (ph ph' : WPhase),
    ws.get? w = some ph →
    ((ws.set w ph').map f).sum + f ph = (ws.map f).sum + f ph' := by
  intro ws
  induction ws with
  | nil => intro w ph ph' h; simp at h
  | cons hd tl ih =>
      intro w ph ph' h
      cases w with
      | zero =>
          simp only [List.get?_cons_zero, Option.some.injEq] at h
          subst h
          simp only [List.set_cons_zero, List.map_cons, List.sum_cons]
          omega
      | succ n =>
          simp only [List.get?_cons_succ] at h
          have := ih n ph ph' h
          simp only [List.set_cons_succ, List.map_cons, List.sum_cons]
          omega

/-- A worker list of exited workers holds no job IDs. -/
lemma flatMap_eq_nil_of_all_exited : ∀ (ws : List WPhase),
    (∀ ph ∈ ws, ph = WPhase.exited) → ws.flatMap phaseIds = [] := by
  intro ws
  induction ws with
  | nil => intro _; rfl
  | cons hd tl ih =>
      intro h
      have hhd := h hd (by simp)
      simp [hhd, phaseIds, ih fun ph hm => h ph (by simp [hm])]

/-- Sending a result for an unseen ID records the ID and appends to the stream. -/
lemma sendResult_not_mem {r : Result} {s : PoolState} (h : r.id ∉ s.sent) :
    sendResult r s = { s with sent := s.sent ++ [r.id], out := s.out ++ [r] } := by
  unfold sendResult
  rw [if_neg h]

/-- Sending a result for an already-delivered ID drops the result. -/
lemma sendResult_mem {r : Result} {s : PoolState} (h : r.id ∈ s.sent) :
    sendResult r s = s := by
  unfold sendResult
  rw [if_pos h]

/-- Moving the head of the pending queue into the sink preserves the ID
multiset. -/
lemma ms_move_pending_to_sent (M : Multiset Nat) (x : Nat) (p act sent : List Nat)
    (h : M = ((x :: p : List Nat) : Multiset Nat) + (act : Multiset Nat) + (sent : Multiset Nat)) :
    M = (p : Multiset Nat) + (act : Multiset Nat) + ((sent ++ [x] : List Nat) : Multiset Nat) := by
  subst h
  simp only [← Multiset.coe_add, ← Multiset.cons_coe, ← Multiset.singleton_add,
    Multiset.coe_nil, add_zero]
  abel

/-- Handing the head of the pending queue to a worker preserves the ID
multiset. -/
lemma ms_move_pending_to_active (M : Multiset Nat) (x : Nat) (p A B sent : List Nat)
    (h : M = ((x :: p : List Nat) : Multiset Nat) + ((A ++ B : List Nat) : Multiset Nat) + (sent : Multiset Nat)) :
    M = (p : Multiset Nat) + ((A ++ (x :: B) : List Nat) : Multiset Nat) + (sent : Multiset Nat) := by
  subst h
  simp only [← Multiset.coe_add, ← Multiset.cons_coe, ← Multiset.singleton_add,
    Multiset.coe_nil, add_zero]
  abel

/-- Moving a worker-held ID into the sink preserves the ID multiset. -/
lemma ms_move_active_to_sent (M : Multiset Nat) (x : Nat) (p A B sent : List Nat)
    (h : M = (p : Multiset Nat) + ((A ++ (x :: B) : List Nat) : Multiset Nat) + (sent : Multiset Nat)) :
    M = (p : Multiset Nat) + ((A ++ B : List Nat) : Multiset Nat) + ((sent ++ [x] : List Nat) : Multiset Nat) := by
  subst h
  simp only [← Multiset.coe_add, ← Multiset.cons_coe, ← Multiset.singleton_add,
    Multiset.coe_nil, add_zero]
  abel

/-- With distinct job IDs, an ID still pending or held by a worker has not
been delivered yet. -/
lemma not_mem_sent {jobs : List Job} {p act sent : List Nat} {x : Nat}
    (hnd : (jobs.map Job.id).Nodup)
    (hperm : ((jobs.map Job.id : List Nat) : Multiset Nat) =
      (p : Multiset Nat) + (act : Multiset Nat) + (sent : Multiset Nat))
    (hx : x ∈ p ∨ x ∈ act) : x ∉ sent := by
  have hnd2 : Multiset.Nodup ((p : Multiset Nat) + (act : Multiset Nat) + (sent : Multiset Nat)) := by
    rw [← hperm]
    exact Multiset.coe_nodup.mpr hnd
  rw [Multiset.nodup_add] at hnd2
  intro hs
  refine Multiset.disjoint_left.mp hnd2.2.2 ?_ (Multiset.mem_coe.mpr hs)
  rcases hx with h | h
  · exact Multiset.mem_add.mpr (Or.inl (Multiset.mem_coe.mpr h))
  · exact Multiset.mem_add.mpr (Or.inr (Multiset.mem_coe.mpr h))

end Worker

namespace Worker

/-- Action `feedSkip` preserves the run invariant. -/
lemma inv_step_feedSkip {jobs : List Job} {hasSem stopOnError : Bool} {semInit : Nat}
    {behav : Nat → OpBehavior} {s : PoolState}
    (hnd : (jobs.map Job.id).Nodup)
    (hinv : Inv jobs hasSem semInit s) :
    Inv jobs hasSem semInit (step behav hasSem stopOnError s .feedSkip) := by
  obtain ⟨hperm, hout, hfd, honce, hoc, hci, hsem⟩ := hinv
  simp only [step]
  split
  · split
    next hp => exact ⟨hperm, hout, hfd, honce, hoc, hci, hsem⟩
    next j rest hp =>
      have hnm : j.id ∉ s.sent :=
        not_mem_sent hnd hperm (Or.inl (by rw [hp]; simp))
      rw [sendResult_not_mem hnm]
      rw [hp] at hperm
      simp only [List.map_cons] at hperm
      refine ⟨?_, ?_, ?_, honce, hoc, hci, hsem⟩
      · exact ms_move_pending_to_sent _ j.id (rest.map Job.id) (activeIds s) s.sent hperm
      · simp [hout]
      · intro hf
        rw [hfd hf] at hp
        simp at hp
  · exact ⟨hperm, hout, hfd, honce, hoc, hci, hsem⟩

end Worker

namespace Worker

/-- Action `feedHand` preserves the run invariant. -/
lemma inv_step_feedHand {jobs : List Job} {hasSem stopOnError : Bool} {semInit : Nat}
    {behav : Nat → OpBehavior} {s : PoolState} (w : Nat)
    (hnd : (jobs.map Job.id).Nodup)
    (hinv : Inv jobs hasSem semInit s) :
    Inv jobs hasSem semInit (step behav hasSem stopOnError s (.feedHand w)) := by
  obtain ⟨hperm, hout, hfd, honce, hoc, hci, hsem⟩ := hinv
  simp only [step]
  split
  next hp => exact ⟨hperm, hout, hfd, honce, hoc, hci, hsem⟩
  next j rest hp =>
    split
    next hw =>
      obtain ⟨A, B, h1, h2⟩ := flatMap_set_split s.workers w _ hw
      refine ⟨?_, hout, ?_, honce, hoc, ?_, ?_⟩
      · rw [hp] at hperm
        simp only [List.map_cons] at hperm
        rw [activeIds, h1] at hperm
        simp only [phaseIds, List.nil_append] at hperm
        show ((jobs.map Job.id : List Nat) : Multiset Nat) =
          ((rest.map Job.id : List Nat) : Multiset Nat) +
          (((s.workers.set w (WPhase.hasJob j)).flatMap phaseIds : List Nat) : Multiset Nat) +
          (s.sent : Multiset Nat)
        rw [h2]
        simp only [phaseIds]
        exact ms_move_pending_to_active _ j.id (rest.map Job.id) A B s.sent hperm
      · intro hf
        rw [hfd hf] at hp
        simp at hp
      · intro h
        have := (hci h).2 _ (mem_of_get s.workers w _ hw)
        simp at this
      · intro ht
        have hs2 := hsem ht
        have h3 := sum_map_set holdWeight s.workers w _ (WPhase.hasJob j) hw
        unfold holdingCount at hs2 ⊢
        simp only [holdWeight] at h3
        show s.semFree + ((s.workers.set w (WPhase.hasJob j)).map holdWeight).sum = semInit
        omega
    next => exact ⟨hperm, hout, hfd, honce, hoc, hci, hsem⟩

/-- Action `feedClose` preserves the run invariant. -/
lemma inv_step_feedClose {jobs : List Job} {hasSem stopOnError : Bool} {semInit : Nat}
    {behav : Nat → OpBehavior} {s : PoolState}
    (hinv : Inv jobs hasSem semInit s) :
    Inv jobs hasSem semInit (step behav hasSem stopOnError s .feedClose) := by
  obtain ⟨hperm, hout, hfd, honce, hoc, hci, hsem⟩ := hinv
  simp only [step]
  split
  next hcond =>
    simp only [Bool.and_eq_true, List.isEmpty_iff, Bool.not_eq_eq_eq_not, Bool.not_true] at hcond
    refine ⟨hperm, hout, ?_, honce, hoc, ?_, hsem⟩
    · intro _
      exact hcond.1
    · intro h
      exact ⟨rfl, ((hci h).2)⟩
  next => exact ⟨hperm, hout, hfd, honce, hoc, hci, hsem⟩

/-- Action `timeoutFire` preserves the run invariant. -/
lemma inv_step_timeoutFire {jobs : List Job} {hasSem stopOnError : Bool} {semInit : Nat}
    {behav : Nat → OpBehavior} {s : PoolState}
    (hinv : Inv jobs hasSem semInit s) :
    Inv jobs hasSem semInit (step behav hasSem stopOnError s .timeoutFire) := by
  obtain ⟨hperm, hout, hfd, honce, hoc, hci, hsem⟩ := hinv
  exact ⟨hperm, hout, hfd, honce, fun _ => rfl, hci, hsem⟩

/-- Action `finalize` preserves the run invariant. -/
lemma inv_step_finalize {jobs : List Job} {hasSem stopOnError : Bool} {semInit : Nat}
    {behav : Nat → OpBehavior} {s : PoolState}
    (hinv : Inv jobs hasSem semInit s) :
    Inv jobs hasSem semInit (step behav hasSem stopOnError s .finalize) := by
  obtain ⟨hperm, hout, hfd, honce, hoc, hci, hsem⟩ := hinv
  simp only [step]
  split
  next hcond =>
    simp only [Bool.and_eq_true, List.all_eq_true, Bool.not_eq_eq_eq_not, Bool.not_true] at hcond
    refine ⟨hperm, hout, hfd, honce, fun _ => rfl, ?_, hsem⟩
    intro _
    refine ⟨hcond.1.1, ?_⟩
    intro ph hm
    have := hcond.1.2 ph hm
    simpa using this
  next => exact ⟨hperm, hout, hfd, honce, hoc, hci, hsem⟩

/-- Action `workerExit` preserves the run invariant. -/
lemma inv_step_workerExit {jobs : List Job} {hasSem stopOnError : Bool} {semInit : Nat}
    {behav : Nat → OpBehavior} {s : PoolState} (w : Nat)
    (hinv : Inv jobs hasSem semInit s) :
    Inv jobs hasSem semInit (step behav hasSem stopOnError s (.workerExit w)) := by
  obtain ⟨hperm, hout, hfd, honce, hoc, hci, hsem⟩ := hinv
  simp only [step]
  split
  next hw =>
    split
    next hclosed =>
      obtain ⟨A, B, h1, h2⟩ := flatMap_set_split s.workers w _ hw
      refine ⟨?_, hout, hfd, honce, hoc, ?_, ?_⟩
      · rw [activeIds, h1] at hperm
        show ((jobs.map Job.id : List Nat) : Multiset Nat) =
          ((s.pending.map Job.id : List Nat) : Multiset Nat) +
          (((s.workers.set w WPhase.exited).flatMap phaseIds : List Nat) : Multiset Nat) +
          (s.sent : Multiset Nat)
        rw [h2]
        exact hperm
      · intro h
        have := (hci h).2 _ (mem_of_get s.workers w _ hw)
        simp at this
      · intro ht
        have hs2 := hsem ht
        have h3 := sum_map_set holdWeight s.workers w _ WPhase.exited hw
        unfold holdingCount at hs2 ⊢
        simp only [holdWeight] at h3
        show s.semFree + ((s.workers.set w WPhase.exited).map holdWeight).sum = semInit
        omega
    next => exact ⟨hperm, hout, hfd, honce, hoc, hci, hsem⟩
  next => exact ⟨hperm, hout, hfd, honce, hoc, hci, hsem⟩

end Worker

namespace Worker

/-- Calling `safeCancelPool` preserves the run invariant. -/
lemma inv_safeCancel {jobs : List Job} {hasSem : Bool} {semInit : Nat} {s : PoolState}
    (hinv : Inv jobs hasSem semInit s) :
    Inv jobs hasSem semInit (safeCancelPool s) := by
  obtain ⟨hperm, hout, hfd, honce, hoc, hci, hsem⟩ := hinv
  unfold safeCancelPool
  split
  · exact ⟨hperm, hout, hfd, honce, hoc, hci, hsem⟩
  next h =>
    refine ⟨hperm, hout, hfd, ?_, fun _ => rfl, hci, hsem⟩
    simp [honce, h]

/-- The sink and the once-guarded cancellation touch disjoint state, so they
commute. -/
lemma sendResult_safeCancel_comm (r : Result) (t : PoolState) :
    sendResult r (safeCancelPool t) = safeCancelPool (sendResult r t) := by
  unfold sendResult safeCancelPool
  by_cases h1 : r.id ∈ t.sent <;> by_cases h2 : t.onceUsed = true <;>
    simp [h1, h2]

/-- Action `checkCtx` preserves the run invariant. -/
lemma inv_step_checkCtx {jobs : List Job} {hasSem stopOnError : Bool} {semInit : Nat}
    {behav : Nat → OpBehavior} {s : PoolState} (w : Nat)
    (hnd : (jobs.map Job.id).Nodup)
    (hinv : Inv jobs hasSem semInit s) :
    Inv jobs hasSem semInit (step behav hasSem stopOnError s (.checkCtx w)) := by
  obtain ⟨hperm, hout, hfd, honce, hoc, hci, hsem⟩ := hinv
  simp only [step]
  split
  next j hw =>
    obtain ⟨A, B, h1, h2⟩ := flatMap_set_split s.workers w _ hw
    have hact : j.id ∈ activeIds s := by
      rw [activeIds, h1]
      simp [phaseIds]
    have hnm : j.id ∉ s.sent := not_mem_sent hnd hperm (Or.inr hact)
    split
    next hc =>
      rw [sendResult_not_mem hnm]
      refine ⟨?_, ?_, hfd, honce, hoc, ?_, ?_⟩
      · rw [activeIds, h1] at hperm
        show ((jobs.map Job.id : List Nat) : Multiset Nat) =
          ((s.pending.map Job.id : List Nat) : Multiset Nat) +
          (((s.workers.set w WPhase.waiting).flatMap phaseIds : List Nat) : Multiset Nat) +
          ((s.sent ++ [j.id] : List Nat) : Multiset Nat)
        rw [h2]
        simp only [phaseIds, List.nil_append]
        exact ms_move_active_to_sent _ j.id (s.pending.map Job.id) A B s.sent hperm
      · simp [hout]
      · intro h
        have := (hci h).2 _ (mem_of_get s.workers w _ hw)
        simp at this
      · intro ht
        have hs2 := hsem ht
        have h3 := sum_map_set holdWeight s.workers w _ WPhase.waiting hw
        unfold holdingCount at hs2 ⊢
        simp only [holdWeight] at h3
        show s.semFree + ((s.workers.set w WPhase.waiting).map holdWeight).sum = semInit
        omega
    next hc =>
      split
      next hst =>
        refine ⟨?_, hout, hfd, honce, hoc, ?_, ?_⟩
        · rw [activeIds, h1] at hperm
          show ((jobs.map Job.id : List Nat) : Multiset Nat) =
            ((s.pending.map Job.id : List Nat) : Multiset Nat) +
            (((s.workers.set w (WPhase.acquiring j)).flatMap phaseIds : List Nat) : Multiset Nat) +
            (s.sent : Multiset Nat)
          rw [h2]
          exact hperm
        · intro h
          have := (hci h).2 _ (mem_of_get s.workers w _ hw)
          simp at this
        · intro ht
          have hs2 := hsem ht
          have h3 := sum_map_set holdWeight s.workers w _ (WPhase.acquiring j) hw
          unfold holdingCount at hs2 ⊢
          simp only [holdWeight] at h3
          show s.semFree + ((s.workers.set w (WPhase.acquiring j)).map holdWeight).sum = semInit
          omega
      next hst =>
        refine ⟨?_, hout, hfd, honce, hoc, ?_, ?_⟩
        · rw [activeIds, h1] at hperm
          show ((jobs.map Job.id : List Nat) : Multiset Nat) =
            ((s.pending.map Job.id : List Nat) : Multiset Nat) +
            (((s.workers.set w (WPhase.holding j)).flatMap phaseIds : List Nat) : Multiset Nat) +
            (s.sent : Multiset Nat)
          rw [h2]
          exact hperm
        · intro h
          have := (hci h).2 _ (mem_of_get s.workers w _ hw)
          simp at this
        · intro ht
          exact absurd ht hst
  all_goals exact ⟨hperm, hout, hfd, honce, hoc, hci, hsem⟩

/-- Action `acquireSem` preserves the run invariant. -/
lemma inv_step_acquireSem {jobs : List Job} {hasSem stopOnError : Bool} {semInit : Nat}
    {behav : Nat → OpBehavior} {s : PoolState} (w : Nat)
    (hinv : Inv jobs hasSem semInit s) :
    Inv jobs hasSem semInit (step behav hasSem stopOnError s (.acquireSem w)) := by
  obtain ⟨hperm, hout, hfd, honce, hoc, hci, hsem⟩ := hinv
  simp only [step]
  split
  next j hw =>
    obtain ⟨A, B, h1, h2⟩ := flatMap_set_split s.workers w _ hw
    split
    next hfree =>
      refine ⟨?_, hout, hfd, honce, hoc, ?_, ?_⟩
      · rw [activeIds, h1] at hperm
        show ((jobs.map Job.id : List Nat) : Multiset Nat) =
          ((s.pending.map Job.id : List Nat) : Multiset Nat) +
          (((s.workers.set w (WPhase.holding j)).flatMap phaseIds : List Nat) : Multiset Nat) +
          (s.sent : Multiset Nat)
        rw [h2]
        exact hperm
      · intro h
        have := (hci h).2 _ (mem_of_get s.workers w _ hw)
        simp at this
      · intro ht
        have hs2 := hsem ht
        have h3 := sum_map_set holdWeight s.workers w _ (WPhase.holding j) hw
        unfold holdingCount at hs2 ⊢
        simp only [holdWeight] at h3
        show s.semFree - 1 + ((s.workers.set w (WPhase.holding j)).map holdWeight).sum = semInit
        omega
    next => exact ⟨hperm, hout, hfd, honce, hoc, hci, hsem⟩
  all_goals exact ⟨hperm, hout, hfd, honce, hoc, hci, hsem⟩

/-- Action `acquireCancel` preserves the run invariant. -/
lemma inv_step_acquireCancel {jobs : List Job} {hasSem stopOnError : Bool} {semInit : Nat}
    {behav : Nat → OpBehavior} {s : PoolState} (w : Nat)
    (hnd : (jobs.map Job.id).Nodup)
    (hinv : Inv jobs hasSem semInit s) :
    Inv jobs hasSem semInit (step behav hasSem stopOnError s (.acquireCancel w)) := by
  obtain ⟨hperm, hout, hfd, honce, hoc, hci, hsem⟩ := hinv
  simp only [step]
  split
  next j hw =>
    obtain ⟨A, B, h1, h2⟩ := flatMap_set_split s.workers w _ hw
    have hact : j.id ∈ activeIds s := by
      rw [activeIds, h1]
      simp [phaseIds]
    have hnm : j.id ∉ s.sent := not_mem_sent hnd hperm (Or.inr hact)
    split
    next hc =>
      rw [sendResult_not_mem hnm]
      refine ⟨?_, ?_, hfd, honce, hoc, ?_, ?_⟩
      · rw [activeIds, h1] at hperm
        show ((jobs.map Job.id : List Nat) : Multiset Nat) =
          ((s.pending.map Job.id : List Nat) : Multiset Nat) +
          (((s.workers.set w WPhase.waiting).flatMap phaseIds : List Nat) : Multiset Nat) +
          ((s.sent ++ [j.id] : List Nat) : Multiset Nat)
        rw [h2]
        simp only [phaseIds, List.nil_append]
        exact ms_move_active_to_sent _ j.id (s.pending.map Job.id) A B s.sent hperm
      · simp [hout]
      · intro h
        have := (hci h).2 _ (mem_of_get s.workers w _ hw)
        simp at this
      · intro ht
        have hs2 := hsem ht
        have h3 := sum_map_set holdWeight s.workers w _ WPhase.waiting hw
        unfold holdingCount at hs2 ⊢
        simp only [holdWeight] at h3
        show s.semFree + ((s.workers.set w WPhase.waiting).map holdWeight).sum = semInit
        omega
    next => exact ⟨hperm, hout, hfd, honce, hoc, hci, hsem⟩
  all_goals exact ⟨hperm, hout, hfd, honce, hoc, hci, hsem⟩

/-- The worker body send after a completed invocation (phase back to
`waiting`, semaphore token released, invocation counted) preserves the run
invariant. -/
lemma inv_runOp_core {jobs : List Job} {hasSem : Bool} {semInit : Nat} {s : PoolState}
    (w : Nat) (j : Job) (v : Nat) (e : Option WErr)
    (hnd : (jobs.map Job.id).Nodup)
    (hinv : Inv jobs hasSem semInit s)
    (hw : s.workers.get? w = some (.holding j)) :
    Inv jobs hasSem semInit (sendResult ⟨j.id, v, e⟩
      { s with invocations := s.invocations + 1,
               semFree := if hasSem then s.semFree + 1 else s.semFree,
               workers := s.workers.set w .waiting }) := by
  obtain ⟨hperm, hout, hfd, honce, hoc, hci, hsem⟩ := hinv
  obtain ⟨A, B, h1, h2⟩ := flatMap_set_split s.workers w _ hw
  have hact : j.id ∈ activeIds s := by
    rw [activeIds, h1]
    simp [phaseIds]
  have hnm : j.id ∉ s.sent := not_mem_sent hnd hperm (Or.inr hact)
  rw [sendResult_not_mem hnm]
  refine ⟨?_, ?_, hfd, honce, hoc, ?_, ?_⟩
  · rw [activeIds, h1] at hperm
    show ((jobs.map Job.id : List Nat) : Multiset Nat) =
      ((s.pending.map Job.id : List Nat) : Multiset Nat) +
      (((s.workers.set w WPhase.waiting).flatMap phaseIds : List Nat) : Multiset Nat) +
      ((s.sent ++ [j.id] : List Nat) : Multiset Nat)
    rw [h2]
    simp only [phaseIds, List.nil_append]
    exact ms_move_active_to_sent _ j.id (s.pending.map Job.id) A B s.sent hperm
  · simp [hout]
  · intro h
    have := (hci h).2 _ (mem_of_get s.workers w _ hw)
    simp at this
  · intro ht
    have hs2 := hsem ht
    have h3 := sum_map_set holdWeight s.workers w _ WPhase.waiting hw
    unfold holdingCount at hs2 ⊢
    simp only [holdWeight] at h3
    show (if hasSem = true then s.semFree + 1 else s.semFree) +
      ((s.workers.set w WPhase.waiting).map holdWeight).sum = semInit
    rw [if_pos ht]
    omega

/-- Action `runOp` preserves the run invariant. -/
lemma inv_step_runOp {jobs : List Job} {hasSem stopOnError : Bool} {semInit : Nat}
    {behav : Nat → OpBehavior} {s : PoolState} (w : Nat)
    (hnd : (jobs.map Job.id).Nodup)
    (hinv : Inv jobs hasSem semInit s) :
    Inv jobs hasSem semInit (step behav hasSem stopOnError s (.runOp w)) := by
  have hinv' := hinv
  obtain ⟨hperm, hout, hfd, honce, hoc, hci, hsem⟩ := hinv
  simp only [step]
  split
  next j hw =>
    split
    next v hb =>
      exact inv_runOp_core w j v none hnd hinv' hw
    next v c hb =>
      by_cases hso : stopOnError = true
      · rw [if_pos hso, sendResult_safeCancel_comm]
        exact inv_safeCancel (inv_runOp_core w j v (some (.opErr c)) hnd hinv' hw)
      · rw [if_neg hso]
        exact inv_runOp_core w j v (some (.opErr c)) hnd hinv' hw
    next m hb =>
      by_cases hso : stopOnError = true
      · rw [if_pos hso]
        exact inv_safeCancel (inv_runOp_core w j 0 (some (.panicked m)) hnd hinv' hw)
      · rw [if_neg hso]
        exact inv_runOp_core w j 0 (some (.panicked m)) hnd hinv' hw
  all_goals exact ⟨hperm, hout, hfd, honce, hoc, hci, hsem⟩

end Worker

namespace Worker

/-- Every single step preserves the run invariant. -/
lemma inv_step {jobs : List Job} {hasSem stopOnError : Bool} {semInit : Nat}
    {behav : Nat → OpBehavior} {s : PoolState}
    (hnd : (jobs.map Job.id).Nodup)
    (hinv : Inv jobs hasSem semInit s) (a : Action) :
    Inv jobs hasSem semInit (step behav hasSem stopOnError s a) := by
  cases a with
  | feedHand w => exact inv_step_feedHand w hnd hinv
  | feedSkip => exact inv_step_feedSkip hnd hinv
  | feedClose => exact inv_step_feedClose hinv
  | checkCtx w => exact inv_step_checkCtx w hnd hinv
  | acquireSem w => exact inv_step_acquireSem w hinv
  | acquireCancel w => exact inv_step_acquireCancel w hnd hinv
  | runOp w => exact inv_step_runOp w hnd hinv
  | workerExit w => exact inv_step_workerExit w hinv
  | timeoutFire => exact inv_step_timeoutFire hinv
  | finalize => exact inv_step_finalize hinv

/-- The initial state satisfies the run invariant. -/
lemma inv_init (jobs : List Job) (hasSem : Bool) (numWorkers semInit : Nat) :
    Inv jobs hasSem semInit (initState jobs numWorkers semInit) := by
  have hact : (List.replicate numWorkers WPhase.waiting).flatMap phaseIds = [] := by
    induction numWorkers with
    | zero => rfl
    | succ n ih => simp [List.replicate_succ, phaseIds, ih]
  have hhold : ((List.replicate numWorkers WPhase.waiting).map holdWeight).sum = 0 := by
    induction numWorkers with
    | zero => rfl
    | succ n ih => simp [List.replicate_succ, holdWeight, ih]
  refine ⟨?_, rfl, fun h => by simp [initState] at h, rfl, fun h => by simp [initState] at h,
    fun h => by simp [initState] at h, ?_⟩
  · show ((jobs.map Job.id : List Nat) : Multiset Nat) =
      ((jobs.map Job.id : List Nat) : Multiset Nat) +
      (((List.replicate numWorkers WPhase.waiting).flatMap phaseIds : List Nat) : Multiset Nat) +
      (([] : List Nat) : Multiset Nat)
    rw [hact]
    simp
  · intro _
    show semInit + ((List.replicate numWorkers WPhase.waiting).map holdWeight).sum = semInit
    rw [hhold]
    omega

/-- Executing any schedule preserves the run invariant. -/
lemma inv_exec {jobs : List Job} {hasSem stopOnError : Bool} {semInit : Nat}
    {behav : Nat → OpBehavior}
    (hnd : (jobs.map Job.id).Nodup) :
    ∀ (sched : List Action) (s : PoolState), Inv jobs hasSem semInit s →
      Inv jobs hasSem semInit (exec behav hasSem stopOnError s sched) := by
  intro sched
  induction sched with
  | nil => intro s h; exact h
  | cons a rest ih =>
      intro s h
      exact ih _ (inv_step hnd h a)

/-- The run invariant holds after any schedule of the machine. -/
lemma inv_runMachine {jobs : List Job} {hasSem stopOnError : Bool}
    {numWorkers semInit : Nat} {behav : Nat → OpBehavior}
    (hnd : (jobs.map Job.id).Nodup) (sched : List Action) :
    Inv jobs hasSem semInit (runMachine behav hasSem stopOnError jobs numWorkers semInit sched) :=
  inv_exec hnd sched _ (inv_init jobs hasSem numWorkers semInit)

/-- Once the output stream is closed, the delivered IDs are exactly the
submitted IDs: one outcome per job, in some order. -/
lemma terminal_facts {jobs : List Job} {hasSem : Bool} {semInit : Nat} {s : PoolState}
    (hnd : (jobs.map Job.id).Nodup)
    (hinv : Inv jobs hasSem semInit s) (hc : s.outClosed = true) :
    List.Perm (s.out.map Result.id) (jobs.map Job.id) ∧ s.out.length = jobs.length ∧
      (s.out.map Result.id).Nodup := by
  obtain ⟨hperm, hout, hfd, honce, hoc, hci, hsem⟩ := hinv
  obtain ⟨hfd2, hex⟩ := hci hc
  have hpend : s.pending = [] := hfd hfd2
  have hact : activeIds s = [] := flatMap_eq_nil_of_all_exited s.workers hex
  rw [hpend, hact] at hperm
  simp only [List.map_nil] at hperm
  have hperm2 : ((jobs.map Job.id : List Nat) : Multiset Nat) = (s.sent : Multiset Nat) := by
    rw [hperm]
    simp
  have hp : List.Perm (jobs.map Job.id) s.sent := Multiset.coe_eq_coe.mp hperm2
  rw [← hout] at hp
  refine ⟨hp.symm, ?_, hp.nodup hnd⟩
  have := hp.length_eq
  simp only [List.length_map] at this
  omega

/-- Executing a concatenated schedule is sequential execution. -/
lemma exec_append {hasSem stopOnError : Bool} {behav : Nat → OpBehavior} :
    ∀ (l₁ l₂ : List Action) (s : PoolState),
      exec behav hasSem stopOnError s (l₁ ++ l₂) =
        exec behav hasSem stopOnError (exec behav hasSem stopOnError s l₁) l₂ := by
  intro l₁
  induction l₁ with
  | nil => intro l₂ s; rfl
  | cons a rest ih => intro l₂ s; exact ih l₂ _

/-- Executing one more scheduled action is one more step. -/
lemma exec_take_succ {hasSem stopOnError : Bool} {behav : Nat → OpBehavior} :
    ∀ (sched : List Action) (n : Nat) (a : Action) (s : PoolState),
      sched.get? n = some a →
      exec behav hasSem stopOnError s (sched.take (n + 1)) =
        step behav hasSem stopOnError (exec behav hasSem stopOnError s (sched.take n)) a := by
  intro sched
  induction sched with
  | nil => intro n a s h; simp at h
  | cons hd tl ih =>
      intro n a s h
      cases n with
      | zero =>
          simp only [List.get?_cons_zero, Option.some.injEq] at h
          subst h
          rfl
      | succ m =>
          simp only [List.get?_cons_succ] at h
          simp only [List.take_succ_cons, exec]
          exact ih m a _ h

/-- One step only appends to the output stream. -/
lemma step_out_mono {hasSem stopOnError : Bool} {behav : Nat → OpBehavior}
    (s : PoolState) (a : Action) :
    ∃ t, (step behav hasSem stopOnError s a).out = s.out ++ t := by
  have hsend : ∀ (r : Result) (u : PoolState), ∃ t, (sendResult r u).out = u.out ++ t := by
    intro r u
    unfold sendResult
    split
    · exact ⟨[], by simp⟩
    · exact ⟨[r], rfl⟩
  have hcancel : ∀ (u : PoolState), (safeCancelPool u).out = u.out := by
    intro u
    unfold safeCancelPool
    split <;> rfl
  cases a with
  | feedHand w =>
      simp only [step]
      split
      · exact ⟨[], by simp⟩
      · split
        · exact ⟨[], by simp⟩
        · exact ⟨[], by simp⟩
  | feedSkip =>
      simp only [step]
      split
      · split
        · exact ⟨[], by simp⟩
        next j rest hp => exact hsend _ _
      · exact ⟨[], by simp⟩
  | feedClose =>
      simp only [step]
      split
      · exact ⟨[], by simp⟩
      · exact ⟨[], by simp⟩
  | checkCtx w =>
      simp only [step]
      split
      · split
        · exact hsend _ _
        · split
          · exact ⟨[], by simp⟩
          · exact ⟨[], by simp⟩
      all_goals exact ⟨[], by simp⟩
  | acquireSem w =>
      simp only [step]
      split
      · split
        · exact ⟨[], by simp⟩
        · exact ⟨[], by simp⟩
      all_goals exact ⟨[], by simp⟩
  | acquireCancel w =>
      simp only [step]
      split
      · split
        · exact hsend _ _
        · exact ⟨[], by simp⟩
      all_goals exact ⟨[], by simp⟩
  | runOp w =>
      simp only [step]
      split
      · split
        · exact hsend _ _
        · by_cases hso : stopOnError = true
          · rw [if_pos hso, sendResult_safeCancel_comm]
            obtain ⟨t, ht⟩ := hsend ⟨_, _, some (.opErr _)⟩ _
            exact ⟨t, by rw [hcancel, ht]⟩
          · rw [if_neg hso]
            exact hsend _ _
        · by_cases hso : stopOnError = true
          · rw [if_pos hso]
            obtain ⟨t, ht⟩ := hsend ⟨_, 0, some (.panicked _)⟩ _
            exact ⟨t, by rw [hcancel, ht]⟩
          · rw [if_neg hso]
            exact hsend _ _
      all_goals exact ⟨[], by simp⟩
  | workerExit w =>
      simp only [step]
      split
      · split
        · exact ⟨[], by simp⟩
        · exact ⟨[], by simp⟩
      all_goals exact ⟨[], by simp⟩
  | timeoutFire => exact ⟨[], by simp [step]⟩
  | finalize =>
      simp only [step]
      split
      · exact ⟨[], by simp⟩
      · exact ⟨[], by simp⟩

/-- Execution only appends to the output stream. -/
lemma exec_out_mono {hasSem stopOnError : Bool} {behav : Nat → OpBehavior} :
    ∀ (sched : List Action) (s : PoolState),
      ∃ t, (exec behav hasSem stopOnError s sched).out = s.out ++ t := by
  intro sched
  induction sched with
  | nil => intro s; exact ⟨[], by simp [exec]⟩
  | cons a rest ih =>
      intro s
      obtain ⟨t1, h1⟩ := @step_out_mono hasSem stopOnError behav s a
      obtain ⟨t2, h2⟩ := ih (step behav hasSem stopOnError s a)
      exact ⟨t1 ++ t2, by simp [exec, h2, h1]⟩

end Worker

namespace Worker

/-- The sink never touches the worker phases. -/
lemma sendResult_workers (r : Result) (u : PoolState) :
    (sendResult r u).workers = u.workers := by
  unfold sendResult
  split <;> rfl

/-- The sink never touches the semaphore. -/
lemma sendResult_semFree (r : Result) (u : PoolState) :
    (sendResult r u).semFree = u.semFree := by
  unfold sendResult
  split <;> rfl

/-- The sink never touches the cancellation signal. -/
lemma sendResult_cancelled (r : Result) (u : PoolState) :
    (sendResult r u).cancelled = u.cancelled := by
  unfold sendResult
  split <;> rfl

/-- The sink never touches the invocation count. -/
lemma sendResult_invocations (r : Result) (u : PoolState) :
    (sendResult r u).invocations = u.invocations := by
  unfold sendResult
  split <;> rfl

/-- The once-guarded cancellation never touches the output stream. -/
lemma safeCancelPool_out (u : PoolState) : (safeCancelPool u).out = u.out := by
  unfold safeCancelPool
  split <;> rfl

/-- The once-guarded cancellation never touches the worker phases. -/
lemma safeCancelPool_workers (u : PoolState) :
    (safeCancelPool u).workers = u.workers := by
  unfold safeCancelPool
  split <;> rfl

/-- The once-guarded cancellation never touches the semaphore. -/
lemma safeCancelPool_semFree (u : PoolState) :
    (safeCancelPool u).semFree = u.semFree := by
  unfold safeCancelPool
  split <;> rfl

/-- The once-guarded cancellation never touches the invocation count. -/
lemma safeCancelPool_invocations (u : PoolState) :
    (safeCancelPool u).invocations = u.invocations := by
  unfold safeCancelPool
  split <;> rfl

/-- After `safeCancelPool` on a state whose `sync.Once` is fresh, the pool
is cancelled. -/
lemma safeCancelPool_cancelled_fresh {u : PoolState} (h : ¬ u.onceUsed = true) :
    (safeCancelPool u).cancelled = true := by
  unfold safeCancelPool
  rw [if_neg h]

/-- The sink never touches the `sync.Once` flag. -/
lemma sendResult_onceUsed (r : Result) (u : PoolState) :
    (sendResult r u).onceUsed = u.onceUsed := by
  unfold sendResult
  split <;> rfl

/-- Calling `safeCancelPool` leaves the pool cancelled whenever a consumed
`sync.Once` already implies cancellation. -/
lemma safeCancelPool_cancelled_true (u : PoolState)
    (h : u.onceUsed = true → u.cancelled = true) :
    (safeCancelPool u).cancelled = true := by
  unfold safeCancelPool
  split
  next hu => exact h hu
  next => rfl

/-- Calling `safeCancelPool` on a consumed `sync.Once` is the identity. -/
lemma safeCancelPool_used {u : PoolState} (h : u.onceUsed = true) :
    safeCancelPool u = u := by
  unfold safeCancelPool
  rw [if_pos h]

/-- Doubling a nonnegative duration below half the int64 range does not
overflow, so the doubled value dominates the original. -/
lemma wrap64_le (n : Int) (h0 : 0 ≤ n) (hb : n ≤ 4611686018427387903) :
    n ≤ wrap64 (n * 2) := by
  unfold wrap64
  omega

end Worker

namespace Worker

/-- C3 counterexample: the claim fails as stated.  With
`WorkerTimeout = 2^62` ns and `GlobalTimeout = 1` ns, the adjustment
`GlobalTimeout = WorkerTimeout * 2` overflows int64 and wraps to
`-2^63`, so the resolved configuration violates
`itemTimeout ≤ batchTimeout`. -/
theorem c3_counterexample :
    ¬ ((resolveConfig ⟨1, 4611686018427387904, 1, false⟩).workerTimeout ≤
       (resolveConfig ⟨1, 4611686018427387904, 1, false⟩).globalTimeout) := by decide

/-- C3 (amended): configuration resolution is total and silent, and for
every raw configuration whose `workerTimeout` is below `2^62` ns (so that
the int64 product `WorkerTimeout * 2` cannot overflow) the resolved
configuration satisfies `numWorkers ≥ 1` and
`0 < workerTimeout ≤ globalTimeout`. -/
theorem c3_config_resolution_amended (cfg : WorkerPoolConfig)
    (hwt : cfg.workerTimeout ≤ 4611686018427387903) :
    1 ≤ (resolveConfig cfg).numWorkers ∧
    0 < (resolveConfig cfg).workerTimeout ∧
    (resolveConfig cfg).workerTimeout ≤ (resolveConfig cfg).globalTimeout := by
  obtain ⟨nw, wt, gt, so⟩ := cfg
  simp only [resolveConfig, timeSecond] at hwt ⊢
  simp only [apply_ite WorkerPoolConfig.workerTimeout,
    apply_ite WorkerPoolConfig.globalTimeout, apply_ite WorkerPoolConfig.numWorkers]
  split_ifs <;>
    refine ⟨by omega, by omega, ?_⟩ <;>
    first
      | omega
      | (exact wrap64_le _ (by omega) (by omega))

/-- C3 amended witness at the all-zero raw configuration. -/
theorem c3_config_resolution_amended_witness :
    ((⟨0, 0, 0, false⟩ : WorkerPoolConfig).workerTimeout ≤ 4611686018427387903) ∧
    (1 ≤ (resolveConfig ⟨0, 0, 0, false⟩).numWorkers ∧
     0 < (resolveConfig ⟨0, 0, 0, false⟩).workerTimeout ∧
     (resolveConfig ⟨0, 0, 0, false⟩).workerTimeout ≤
       (resolveConfig ⟨0, 0, 0, false⟩).globalTimeout) :=
  ⟨by decide, c3_config_resolution_amended ⟨0, 0, 0, false⟩ (by decide)⟩

/-- C8: submitting zero items returns an already-closed empty stream with
no outcome, zero operation invocations and no spawned goroutine of any
kind. -/
theorem c8_empty_batch_immediate (ctxDone : Bool) (cfg : WorkerPoolConfig)
    (behav : Nat → OpBehavior) (hasSem : Bool) (semInit : Nat) (sched : List Action) :
    runFull ctxDone [] cfg behav hasSem semInit sched =
      ⟨[], true, 0, 0, 0, 0, 0⟩ := rfl

/-- C2: a batch with a repeated identifier is rejected all-or-nothing:
every submitted item (also the ones before the duplicate) receives a
failure outcome carrying the duplicate-identifier error, the operation is
invoked zero times, no worker or feeder is spawned, and the closed stream
holds exactly one outcome per submitted item. -/
theorem c2_duplicate_ids_reject_batch
    (ctxDone : Bool) (jobs : List Job) (cfg : WorkerPoolConfig)
    (behav : Nat → OpBehavior) (hasSem : Bool) (semInit : Nat) (sched : List Action)
    (hdup : ¬ (jobs.map Job.id).Nodup) :
    ∃ d,
      (runFull ctxDone jobs cfg behav hasSem semInit sched).out =
        jobs.map (fun j => ⟨j.id, 0, some (.dupId d)⟩) ∧
      (runFull ctxDone jobs cfg behav hasSem semInit sched).closed = true ∧
      (runFull ctxDone jobs cfg behav hasSem semInit sched).invocations = 0 ∧
      (runFull ctxDone jobs cfg behav hasSem semInit sched).workersSpawned = 0 ∧
      (runFull ctxDone jobs cfg behav hasSem semInit sched).feedersSpawned = 0 ∧
      (runFull ctxDone jobs cfg behav hasSem semInit sched).out.length = jobs.length ∧
      ∀ r ∈ (runFull ctxDone jobs cfg behav hasSem semInit sched).out,
        r.err = some (.dupId d) := by
  obtain ⟨d, hfd⟩ := findDup_some_of_not_nodup jobs hdup
  have hne : jobs.isEmpty = false := by
    cases jobs with
    | nil => simp at hdup
    | cons a l => rfl
  have hrun : RunGenericWorkerPoolStream ctxDone jobs cfg =
      .rejectDup (jobs.map fun j => ⟨j.id, 0, some (.dupId d)⟩) := by
    unfold RunGenericWorkerPoolStream
    rw [hne, hfd]
    rfl
  refine ⟨d, ?_, ?_, ?_, ?_, ?_, ?_, ?_⟩ <;>
    simp only [runFull, hrun] <;>
    simp

/-- C5: with the parent context already cancelled at submission time (and a
non-empty batch of distinct identifiers), every item resolves to a skipped
outcome, the operation is invoked zero times, and no worker or feeder is
spawned. -/
theorem c5_cancelled_parent_skips_all
    (jobs : List Job) (cfg : WorkerPoolConfig) (behav : Nat → OpBehavior)
    (hasSem : Bool) (semInit : Nat) (sched : List Action)
    (hnd : (jobs.map Job.id).Nodup) (hne : jobs ≠ []) :
    (runFull true jobs cfg behav hasSem semInit sched).out =
      jobs.map (fun j => ⟨j.id, 0, some .skipped⟩) ∧
    (runFull true jobs cfg behav hasSem semInit sched).closed = true ∧
    (runFull true jobs cfg behav hasSem semInit sched).invocations = 0 ∧
    (runFull true jobs cfg behav hasSem semInit sched).workersSpawned = 0 ∧
    (runFull true jobs cfg behav hasSem semInit sched).feedersSpawned = 0 ∧
    (runFull true jobs cfg behav hasSem semInit sched).out.length = jobs.length := by
  have hfd : findDup [] jobs = none := findDup_none_of_nodup jobs [] hnd (by simp)
  have hne2 : jobs.isEmpty = false := by
    cases jobs with
    | nil => exact absurd rfl hne
    | cons a l => rfl
  have hrun : RunGenericWorkerPoolStream true jobs cfg =
      .skippedAll (jobs.map fun j => ⟨j.id, 0, some .skipped⟩) := by
    unfold RunGenericWorkerPoolStream
    rw [hne2, hfd]
    rfl
  refine ⟨?_, ?_, ?_, ?_, ?_, ?_⟩ <;>
    simp only [runFull, hrun] <;>
    simp

end Worker

namespace Worker

/-- C9: on the two whole-batch rejection paths (duplicate IDs and an
already-cancelled parent context) the outcomes are emitted in submission
order — the list of delivered IDs equals the list of submitted IDs — while
the concurrent path gives no such guarantee: a two-worker schedule exists
that delivers the second job's outcome first. -/
theorem c9_rejection_paths_submission_order
    (ctxDone : Bool) (jobs : List Job) (cfg : WorkerPoolConfig) (out : List Result)
    (h : RunGenericWorkerPoolStream ctxDone jobs cfg = .rejectDup out ∨
         RunGenericWorkerPoolStream ctxDone jobs cfg = .skippedAll out) :
    out.map Result.id = jobs.map Job.id ∧
    (runMachine (fun _ => .ok 0) false false [⟨1, 0⟩, ⟨2, 0⟩] 2 0
      [.feedHand 0, .feedHand 1, .checkCtx 1, .runOp 1, .checkCtx 0, .runOp 0]).out.map Result.id
      = [2, 1] := by
  refine ⟨?_, by decide⟩
  rcases h with h | h
  · unfold RunGenericWorkerPoolStream at h
    split at h
    · simp at h
    · split at h
      next d hfd =>
        injection h with h2
        rw [← h2]
        simp [List.map_map, Function.comp]
      next hfd =>
        split at h
        · simp at h
        · simp at h
  · unfold RunGenericWorkerPoolStream at h
    split at h
    · simp at h
    · split at h
      next d hfd => simp at h
      next hfd =>
        split at h
        · injection h with h2
          rw [← h2]
          simp [List.map_map, Function.comp]
        · simp at h

/-- C9 witness: the already-cancelled path at a concrete two-job batch. -/
theorem c9_rejection_paths_submission_order_witness :
    (RunGenericWorkerPoolStream true [⟨5, 0⟩, ⟨7, 0⟩] ⟨0, 0, 0, false⟩ =
        .rejectDup [⟨5, 0, some .skipped⟩, ⟨7, 0, some .skipped⟩] ∨
      RunGenericWorkerPoolStream true [⟨5, 0⟩, ⟨7, 0⟩] ⟨0, 0, 0, false⟩ =
        .skippedAll [⟨5, 0, some .skipped⟩, ⟨7, 0, some .skipped⟩]) ∧
    (([⟨5, 0, some .skipped⟩, ⟨7, 0, some .skipped⟩] : List Result).map Result.id =
       ([⟨5, 0⟩, ⟨7, 0⟩] : List Job).map Job.id ∧
     (runMachine (fun _ => .ok 0) false false [⟨1, 0⟩, ⟨2, 0⟩] 2 0
      [.feedHand 0, .feedHand 1, .checkCtx 1, .runOp 1, .checkCtx 0, .runOp 0]).out.map Result.id
      = [2, 1]) :=
  ⟨Or.inr rfl,
    c9_rejection_paths_submission_order true [⟨5, 0⟩, ⟨7, 0⟩] ⟨0, 0, 0, false⟩
      [⟨5, 0, some .skipped⟩, ⟨7, 0, some .skipped⟩] (Or.inr rfl)⟩

/-- C1: for an accepted batch with distinct identifiers, once the output
stream is closed the engine has delivered exactly one outcome per submitted
identifier — exactly N outcomes, their identifiers a permutation of the
submitted ones, none delivered twice — and the sink's atomic per-identifier
test-and-set silently drops every delivery attempt after the first for an
identifier. -/
theorem c1_exactly_one_outcome_per_id
    (jobs : List Job) (numWorkers semInit : Nat) (behav : Nat → OpBehavior)
    (hasSem stopOnError : Bool) (sched : List Action)
    (hnd : (jobs.map Job.id).Nodup)
    (hclosed : (runMachine behav hasSem stopOnError jobs numWorkers semInit sched).outClosed = true) :
    (runMachine behav hasSem stopOnError jobs numWorkers semInit sched).out.length = jobs.length ∧
    List.Perm
      ((runMachine behav hasSem stopOnError jobs numWorkers semInit sched).out.map Result.id)
      (jobs.map Job.id) ∧
    ((runMachine behav hasSem stopOnError jobs numWorkers semInit sched).out.map Result.id).Nodup ∧
    (∀ (t : PoolState) (r : Result), r.id ∈ t.sent → sendResult r t = t) := by
  obtain ⟨h1, h2, h3⟩ := terminal_facts hnd (inv_runMachine hnd sched) hclosed
  exact ⟨h2, h1, h3, fun t r hm => sendResult_mem hm⟩

/-- C1 witness: one worker drains a concrete two-job batch to closure. -/
theorem c1_exactly_one_outcome_per_id_witness :
    (([⟨1, 10⟩, ⟨2, 20⟩] : List Job).map Job.id).Nodup ∧
    (runMachine (fun _ => .ok 5) false false [⟨1, 10⟩, ⟨2, 20⟩] 1 0
      [.feedHand 0, .checkCtx 0, .runOp 0, .feedHand 0, .checkCtx 0, .runOp 0,
       .feedClose, .workerExit 0, .finalize]).outClosed = true ∧
    ((runMachine (fun _ => .ok 5) false false [⟨1, 10⟩, ⟨2, 20⟩] 1 0
      [.feedHand 0, .checkCtx 0, .runOp 0, .feedHand 0, .checkCtx 0, .runOp 0,
       .feedClose, .workerExit 0, .finalize]).out.length =
        ([⟨1, 10⟩, ⟨2, 20⟩] : List Job).length ∧
     List.Perm
       ((runMachine (fun _ => .ok 5) false false [⟨1, 10⟩, ⟨2, 20⟩] 1 0
        [.feedHand 0, .checkCtx 0, .runOp 0, .feedHand 0, .checkCtx 0, .runOp 0,
         .feedClose, .workerExit 0, .finalize]).out.map Result.id)
       (([⟨1, 10⟩, ⟨2, 20⟩] : List Job).map Job.id) ∧
     ((runMachine (fun _ => .ok 5) false false [⟨1, 10⟩, ⟨2, 20⟩] 1 0
      [.feedHand 0, .checkCtx 0, .runOp 0, .feedHand 0, .checkCtx 0, .runOp 0,
       .feedClose, .workerExit 0, .finalize]).out.map Result.id).Nodup ∧
     (∀ (t : PoolState) (r : Result), r.id ∈ t.sent → sendResult r t = t)) :=
  ⟨by decide, by decide,
    c1_exactly_one_outcome_per_id [⟨1, 10⟩, ⟨2, 20⟩] 1 0 (fun _ => .ok 5) false false
      [.feedHand 0, .checkCtx 0, .runOp 0, .feedHand 0, .checkCtx 0, .runOp 0,
       .feedClose, .workerExit 0, .finalize] (by decide) (by decide)⟩

end Worker

namespace Worker

/-- C4: an abnormal termination (`panic`) of the user operation at item `j`
is recovered inside the worker's containment boundary: the item's outcome
is the descriptive panic failure and is delivered on the stream, the worker
goes back to the receive loop (it does not terminate), and whenever the
schedule closes the stream every submitted item still has its outcome. -/
theorem c4_panic_contained
    (jobs : List Job) (numWorkers semInit : Nat) (behav : Nat → OpBehavior)
    (hasSem stopOnError : Bool) (sched : List Action) (n w : Nat) (j : Job) (m : Nat)
    (hnd : (jobs.map Job.id).Nodup)
    (ha : sched.get? n = some (.runOp w))
    (hph : (runMachine behav hasSem stopOnError jobs numWorkers semInit (sched.take n)).workers.get? w
      = some (.holding j))
    (hb : behav j.data = .panics m) :
    (⟨j.id, 0, some (.panicked m)⟩ : Result) ∈
      (runMachine behav hasSem stopOnError jobs numWorkers semInit sched).out ∧
    (runMachine behav hasSem stopOnError jobs numWorkers semInit (sched.take (n + 1))).workers.get? w
      = some .waiting ∧
    ((runMachine behav hasSem stopOnError jobs numWorkers semInit sched).outClosed = true →
      (runMachine behav hasSem stopOnError jobs numWorkers semInit sched).out.length = jobs.length) := by
  set t := runMachine behav hasSem stopOnError jobs numWorkers semInit (sched.take n) with hteq
  have hinvt : Inv jobs hasSem semInit t := inv_runMachine hnd (sched.take n)
  obtain ⟨A, B, h1, h2⟩ := flatMap_set_split t.workers w _ hph
  have hact : j.id ∈ activeIds t := by
    rw [activeIds, h1]
    simp [phaseIds]
  have hnm : j.id ∉ t.sent := not_mem_sent hnd hinvt.perm (Or.inr hact)
  have hstep : runMachine behav hasSem stopOnError jobs numWorkers semInit (sched.take (n + 1)) =
      step behav hasSem stopOnError t (.runOp w) :=
    exec_take_succ sched n _ _ ha
  have hout1 : (step behav hasSem stopOnError t (.runOp w)).out =
      t.out ++ [⟨j.id, 0, some (.panicked m)⟩] := by
    simp only [step, hph, hb]
    by_cases hso : stopOnError = true
    · rw [if_pos hso, safeCancelPool_out, sendResult_not_mem hnm]
    · rw [if_neg hso, sendResult_not_mem hnm]
  have hwk : (step behav hasSem stopOnError t (.runOp w)).workers.get? w = some .waiting := by
    simp only [step, hph, hb]
    by_cases hso : stopOnError = true
    · rw [if_pos hso, safeCancelPool_workers, sendResult_workers]
      exact get_set_self t.workers w _ _ hph
    · rw [if_neg hso, sendResult_workers]
      exact get_set_self t.workers w _ _ hph
  have hsplitrun : runMachine behav hasSem stopOnError jobs numWorkers semInit sched =
      exec behav hasSem stopOnError
        (runMachine behav hasSem stopOnError jobs numWorkers semInit (sched.take (n + 1)))
        (sched.drop (n + 1)) := by
    have h := @exec_append hasSem stopOnError behav (sched.take (n + 1)) (sched.drop (n + 1))
      (initState jobs numWorkers semInit)
    rw [List.take_append_drop] at h
    exact h
  obtain ⟨t2, ht2⟩ := @exec_out_mono hasSem stopOnError behav (sched.drop (n + 1))
    (runMachine behav hasSem stopOnError jobs numWorkers semInit (sched.take (n + 1)))
  refine ⟨?_, ?_, ?_⟩
  · rw [hsplitrun, ht2, hstep, hout1]
    simp
  · rw [hstep]
    exact hwk
  · intro hc
    exact (terminal_facts hnd (inv_runMachine hnd sched) hc).2.1

/-- C4 witness: a one-worker schedule where the first job's operation
panics and the second succeeds, run to closure. -/
theorem c4_panic_contained_witness :
    (([⟨1, 10⟩, ⟨2, 20⟩] : List Job).map Job.id).Nodup ∧
    ([Action.feedHand 0, .checkCtx 0, .runOp 0, .feedHand 0, .checkCtx 0, .runOp 0,
      .feedClose, .workerExit 0, .finalize].get? 2 = some (.runOp 0)) ∧
    ((runMachine (fun d => if d = 10 then .panics 7 else .ok 3) false false [⟨1, 10⟩, ⟨2, 20⟩] 1 0
      ([Action.feedHand 0, .checkCtx 0, .runOp 0, .feedHand 0, .checkCtx 0, .runOp 0,
        .feedClose, .workerExit 0, .finalize].take 2)).workers.get? 0 =
      some (.holding ⟨1, 10⟩)) ∧
    ((fun d => if d = 10 then OpBehavior.panics 7 else OpBehavior.ok 3) (Job.mk 1 10).data =
      .panics 7) ∧
    ((⟨1, 0, some (.panicked 7)⟩ : Result) ∈
      (runMachine (fun d => if d = 10 then .panics 7 else .ok 3) false false [⟨1, 10⟩, ⟨2, 20⟩] 1 0
        [Action.feedHand 0, .checkCtx 0, .runOp 0, .feedHand 0, .checkCtx 0, .runOp 0,
         .feedClose, .workerExit 0, .finalize]).out ∧
     (runMachine (fun d => if d = 10 then .panics 7 else .ok 3) false false [⟨1, 10⟩, ⟨2, 20⟩] 1 0
        ([Action.feedHand 0, .checkCtx 0, .runOp 0, .feedHand 0, .checkCtx 0, .runOp 0,
          .feedClose, .workerExit 0, .finalize].take 3)).workers.get? 0 = some .waiting ∧
     ((runMachine (fun d => if d = 10 then .panics 7 else .ok 3) false false [⟨1, 10⟩, ⟨2, 20⟩] 1 0
        [Action.feedHand 0, .checkCtx 0, .runOp 0, .feedHand 0, .checkCtx 0, .runOp 0,
         .feedClose, .workerExit 0, .finalize]).outClosed = true →
      (runMachine (fun d => if d = 10 then .panics 7 else .ok 3) false false [⟨1, 10⟩, ⟨2, 20⟩] 1 0
        [Action.feedHand 0, .checkCtx 0, .runOp 0, .feedHand 0, .checkCtx 0, .runOp 0,
         .feedClose, .workerExit 0, .finalize]).out.length =
        ([⟨1, 10⟩, ⟨2, 20⟩] : List Job).length)) :=
  ⟨by decide, by decide, by decide, by decide,
    c4_panic_contained [⟨1, 10⟩, ⟨2, 20⟩] 1 0 (fun d => if d = 10 then .panics 7 else .ok 3)
      false false
      [Action.feedHand 0, .checkCtx 0, .runOp 0, .feedHand 0, .checkCtx 0, .runOp 0,
       .feedClose, .workerExit 0, .finalize] 2 0 ⟨1, 10⟩ 7
      (by decide) (by decide) (by decide) (by decide)⟩

end Worker

namespace Worker

/-- C6: the admission gate stays balanced: at every prefix of any schedule
the free tokens plus the tokens held by workers inside the critical section
equal the initial capacity, so when no worker is inside the critical
section the gate is fully restored; the skip paths (feeder skip, context
check, cancellation while waiting for the gate) never touch the gate; and a
worker entering `runOp` — whatever the operation does, panic included —
releases exactly one token. -/
theorem c6_gate_tokens_balanced
    (jobs : List Job) (numWorkers semInit : Nat) (behav : Nat → OpBehavior)
    (stopOnError : Bool) (sched : List Action) (n w : Nat) (j : Job)
    (hnd : (jobs.map Job.id).Nodup) :
    ((runMachine behav true stopOnError jobs numWorkers semInit (sched.take n)).semFree +
      holdingCount (runMachine behav true stopOnError jobs numWorkers semInit (sched.take n)) =
        semInit) ∧
    (holdingCount (runMachine behav true stopOnError jobs numWorkers semInit (sched.take n)) = 0 →
      (runMachine behav true stopOnError jobs numWorkers semInit (sched.take n)).semFree = semInit) ∧
    (∀ s : PoolState,
      (step behav true stopOnError s .feedSkip).semFree = s.semFree ∧
      (step behav true stopOnError s (.checkCtx w)).semFree = s.semFree ∧
      (step behav true stopOnError s (.acquireCancel w)).semFree = s.semFree) ∧
    ((runMachine behav true stopOnError jobs numWorkers semInit (sched.take n)).workers.get? w =
        some (.holding j) →
      (step behav true stopOnError
        (runMachine behav true stopOnError jobs numWorkers semInit (sched.take n))
        (.runOp w)).semFree =
      (runMachine behav true stopOnError jobs numWorkers semInit (sched.take n)).semFree + 1) := by
  set t := runMachine behav true stopOnError jobs numWorkers semInit (sched.take n) with hteq
  have hinvt : Inv jobs true semInit t := inv_runMachine hnd (sched.take n)
  refine ⟨hinvt.semBal rfl, ?_, ?_, ?_⟩
  · intro h0
    have := hinvt.semBal rfl
    omega
  · intro s
    refine ⟨?_, ?_, ?_⟩
    · simp only [step]
      split
      · split
        · rfl
        · rw [sendResult_semFree]
      · rfl
    · simp only [step]
      split
      next jj hw =>
        split
        · rw [sendResult_semFree]
        · split
          · rfl
          · rfl
      all_goals rfl
    · simp only [step]
      split
      next jj hw =>
        split
        · rw [sendResult_semFree]
        · rfl
      all_goals rfl
  · intro hph
    cases hbeh : behav j.data with
    | ok v =>
        simp only [step, hph, hbeh]
        rw [sendResult_semFree]
        simp
    | fail v c =>
        by_cases hso : stopOnError = true
        · simp only [step, hph, hbeh, if_pos hso]
          rw [sendResult_semFree, safeCancelPool_semFree]
          simp
        · simp only [step, hph, hbeh, if_neg hso]
          rw [sendResult_semFree]
          simp
    | panics mm =>
        by_cases hso : stopOnError = true
        · simp only [step, hph, hbeh, if_pos hso]
          rw [safeCancelPool_semFree, sendResult_semFree]
          simp
        · simp only [step, hph, hbeh, if_neg hso]
          rw [sendResult_semFree]
          simp

/-- C6 witness: a one-worker schedule through the gate at capacity one. -/
theorem c6_gate_tokens_balanced_witness :
    (([⟨1, 10⟩, ⟨2, 20⟩] : List Job).map Job.id).Nodup ∧
    (((runMachine (fun _ => .ok 5) true false [⟨1, 10⟩, ⟨2, 20⟩] 1 1
        ([Action.feedHand 0, .checkCtx 0, .acquireSem 0, .runOp 0].take 3)).semFree +
      holdingCount (runMachine (fun _ => .ok 5) true false [⟨1, 10⟩, ⟨2, 20⟩] 1 1
        ([Action.feedHand 0, .checkCtx 0, .acquireSem 0, .runOp 0].take 3)) = 1) ∧
     (holdingCount (runMachine (fun _ => .ok 5) true false [⟨1, 10⟩, ⟨2, 20⟩] 1 1
        ([Action.feedHand 0, .checkCtx 0, .acquireSem 0, .runOp 0].take 3)) = 0 →
      (runMachine (fun _ => .ok 5) true false [⟨1, 10⟩, ⟨2, 20⟩] 1 1
        ([Action.feedHand 0, .checkCtx 0, .acquireSem 0, .runOp 0].take 3)).semFree = 1) ∧
     (∀ s : PoolState,
      (step (fun _ => .ok 5) true false s .feedSkip).semFree = s.semFree ∧
      (step (fun _ => .ok 5) true false s (.checkCtx 0)).semFree = s.semFree ∧
      (step (fun _ => .ok 5) true false s (.acquireCancel 0)).semFree = s.semFree) ∧
     ((runMachine (fun _ => .ok 5) true false [⟨1, 10⟩, ⟨2, 20⟩] 1 1
        ([Action.feedHand 0, .checkCtx 0, .acquireSem 0, .runOp 0].take 3)).workers.get? 0 =
        some (.holding ⟨1, 10⟩) →
      (step (fun _ => .ok 5) true false
        (runMachine (fun _ => .ok 5) true false [⟨1, 10⟩, ⟨2, 20⟩] 1 1
          ([Action.feedHand 0, .checkCtx 0, .acquireSem 0, .runOp 0].take 3))
        (.runOp 0)).semFree =
      (runMachine (fun _ => .ok 5) true false [⟨1, 10⟩, ⟨2, 20⟩] 1 1
        ([Action.feedHand 0, .checkCtx 0, .acquireSem 0, .runOp 0].take 3)).semFree + 1)) :=
  ⟨by decide,
    c6_gate_tokens_balanced [⟨1, 10⟩, ⟨2, 20⟩] 1 1 (fun _ => .ok 5) false
      [Action.feedHand 0, .checkCtx 0, .acquireSem 0, .runOp 0] 3 0 ⟨1, 10⟩ (by decide)⟩

end Worker

namespace Worker

/-- C7: with `StopOnError` set, a failing or panicking invocation leaves the
pool cancelled; the `sync.Once` body behind `safeCancelPool` runs at most
once on any schedule; cancellation is cooperative — a worker already inside
the critical section still runs the operation and delivers its genuine
outcome (one more invocation, never a skip); and an item whose context
check happens after cancellation is skipped without invoking the
operation. -/
theorem c7_stop_on_error_cooperative
    (jobs : List Job) (numWorkers semInit : Nat) (behav : Nat → OpBehavior)
    (hasSem : Bool) (sched : List Action) (n w : Nat) (j : Job)
    (hnd : (jobs.map Job.id).Nodup) :
    ((runMachine behav hasSem true jobs numWorkers semInit (sched.take n)).onceBodyRuns ≤ 1) ∧
    ((runMachine behav hasSem true jobs numWorkers semInit (sched.take n)).workers.get? w =
        some (.holding j) →
      opFails (behav j.data) = true →
      (step behav hasSem true
        (runMachine behav hasSem true jobs numWorkers semInit (sched.take n))
        (.runOp w)).cancelled = true) ∧
    ((runMachine behav hasSem true jobs numWorkers semInit (sched.take n)).workers.get? w =
        some (.holding j) →
      (step behav hasSem true
        (runMachine behav hasSem true jobs numWorkers semInit (sched.take n))
        (.runOp w)).out =
        (runMachine behav hasSem true jobs numWorkers semInit (sched.take n)).out ++
          [opOutcome j (behav j.data)] ∧
      (step behav hasSem true
        (runMachine behav hasSem true jobs numWorkers semInit (sched.take n))
        (.runOp w)).invocations =
        (runMachine behav hasSem true jobs numWorkers semInit (sched.take n)).invocations + 1) ∧
    ((runMachine behav hasSem true jobs numWorkers semInit (sched.take n)).cancelled = true →
      (runMachine behav hasSem true jobs numWorkers semInit (sched.take n)).workers.get? w =
        some (.hasJob j) →
      (step behav hasSem true
        (runMachine behav hasSem true jobs numWorkers semInit (sched.take n))
        (.checkCtx w)).out =
        (runMachine behav hasSem true jobs numWorkers semInit (sched.take n)).out ++
          [⟨j.id, 0, some WErr.skipped⟩] ∧
      (step behav hasSem true
        (runMachine behav hasSem true jobs numWorkers semInit (sched.take n))
        (.checkCtx w)).invocations =
        (runMachine behav hasSem true jobs numWorkers semInit (sched.take n)).invocations) := by
  set t := runMachine behav hasSem true jobs numWorkers semInit (sched.take n) with hteq
  have hinvt : Inv jobs hasSem semInit t := inv_runMachine hnd (sched.take n)
  refine ⟨?_, ?_, ?_, ?_⟩
  · have h := hinvt.onceEq
    split at h <;> omega
  · intro hph hfl
    cases hbeh : behav j.data with
    | ok v =>
        rw [hbeh] at hfl
        simp [opFails] at hfl
    | fail v c =>
        simp only [step, hph, hbeh, if_true]
        rw [sendResult_cancelled]
        exact safeCancelPool_cancelled_true _ (fun hu => hinvt.onceCan hu)
    | panics mm =>
        simp only [step, hph, hbeh, if_true]
        refine safeCancelPool_cancelled_true _ (fun hu => ?_)
        rw [sendResult_onceUsed] at hu
        rw [sendResult_cancelled]
        exact hinvt.onceCan hu
  · intro hph
    obtain ⟨A, B, h1, h2⟩ := flatMap_set_split t.workers w _ hph
    have hact : j.id ∈ activeIds t := by
      rw [activeIds, h1]
      simp [phaseIds]
    have hnm : j.id ∉ t.sent := not_mem_sent hnd hinvt.perm (Or.inr hact)
    cases hbeh : behav j.data with
    | ok v =>
        constructor
        · simp only [step, hph, hbeh]
          rw [sendResult_not_mem hnm]
          simp [opOutcome]
        · simp only [step, hph, hbeh]
          rw [sendResult_invocations]
    | fail v c =>
        constructor
        · simp only [step, hph, hbeh, if_true]
          rw [sendResult_safeCancel_comm, safeCancelPool_out, sendResult_not_mem hnm]
          simp [opOutcome]
        · simp only [step, hph, hbeh, if_true]
          rw [sendResult_safeCancel_comm, safeCancelPool_invocations, sendResult_invocations]
    | panics mm =>
        constructor
        · simp only [step, hph, hbeh, if_true]
          rw [safeCancelPool_out, sendResult_not_mem hnm]
          simp [opOutcome]
        · simp only [step, hph, hbeh, if_true]
          rw [safeCancelPool_invocations, sendResult_invocations]
  · intro hc hph2
    obtain ⟨A, B, h1, h2⟩ := flatMap_set_split t.workers w _ hph2
    have hact : j.id ∈ activeIds t := by
      rw [activeIds, h1]
      simp [phaseIds]
    have hnm : j.id ∉ t.sent := not_mem_sent hnd hinvt.perm (Or.inr hact)
    constructor
    · simp only [step, hph2, if_pos hc]
      rw [sendResult_not_mem hnm]
    · simp only [step, hph2, if_pos hc]
      rw [sendResult_invocations]

/-- C7 witness: one worker, first job fails, second is checked after the
abort and is skipped. -/
theorem c7_stop_on_error_cooperative_witness :
    (([⟨1, 10⟩, ⟨2, 20⟩] : List Job).map Job.id).Nodup ∧
    (((runMachine (fun d => if d = 10 then .fail 0 3 else .ok 4) false true [⟨1, 10⟩, ⟨2, 20⟩] 1 0
        ([Action.feedHand 0, .checkCtx 0, .runOp 0, .feedHand 0, .checkCtx 0].take 4)).onceBodyRuns
          ≤ 1) ∧
     ((runMachine (fun d => if d = 10 then .fail 0 3 else .ok 4) false true [⟨1, 10⟩, ⟨2, 20⟩] 1 0
        ([Action.feedHand 0, .checkCtx 0, .runOp 0, .feedHand 0, .checkCtx 0].take 4)).workers.get? 0
          = some (.holding ⟨2, 20⟩) →
      opFails ((fun d => if d = 10 then OpBehavior.fail 0 3 else OpBehavior.ok 4) (Job.mk 2 20).data)
          = true →
      (step (fun d => if d = 10 then .fail 0 3 else .ok 4) false true
        (runMachine (fun d => if d = 10 then .fail 0 3 else .ok 4) false true [⟨1, 10⟩, ⟨2, 20⟩] 1 0
          ([Action.feedHand 0, .checkCtx 0, .runOp 0, .feedHand 0, .checkCtx 0].take 4))
        (.runOp 0)).cancelled = true) ∧
     ((runMachine (fun d => if d = 10 then .fail 0 3 else .ok 4) false true [⟨1, 10⟩, ⟨2, 20⟩] 1 0
        ([Action.feedHand 0, .checkCtx 0, .runOp 0, .feedHand 0, .checkCtx 0].take 4)).workers.get? 0
          = some (.holding ⟨2, 20⟩) →
      (step (fun d => if d = 10 then .fail 0 3 else .ok 4) false true
        (runMachine (fun d => if d = 10 then .fail 0 3 else .ok 4) false true [⟨1, 10⟩, ⟨2, 20⟩] 1 0
          ([Action.feedHand 0, .checkCtx 0, .runOp 0, .feedHand 0, .checkCtx 0].take 4))
        (.runOp 0)).out =
        (runMachine (fun d => if d = 10 then .fail 0 3 else .ok 4) false true [⟨1, 10⟩, ⟨2, 20⟩] 1 0
          ([Action.feedHand 0, .checkCtx 0, .runOp 0, .feedHand 0, .checkCtx 0].take 4)).out ++
          [opOutcome ⟨2, 20⟩ ((fun d => if d = 10 then OpBehavior.fail 0 3 else OpBehavior.ok 4)
            (Job.mk 2 20).data)] ∧
      (step (fun d => if d = 10 then .fail 0 3 else .ok 4) false true
        (runMachine (fun d => if d = 10 then .fail 0 3 else .ok 4) false true [⟨1, 10⟩, ⟨2, 20⟩] 1 0
          ([Action.feedHand 0, .checkCtx 0, .runOp 0, .feedHand 0, .checkCtx 0].take 4))
        (.runOp 0)).invocations =
        (runMachine (fun d => if d = 10 then .fail 0 3 else .ok 4) false true [⟨1, 10⟩, ⟨2, 20⟩] 1 0
          ([Action.feedHand 0, .checkCtx 0, .runOp 0, .feedHand 0, .checkCtx 0].take 4)).invocations
          + 1) ∧
     ((runMachine (fun d => if d = 10 then .fail 0 3 else .ok 4) false true [⟨1, 10⟩, ⟨2, 20⟩] 1 0
        ([Action.feedHand 0, .checkCtx 0, .runOp 0, .feedHand 0, .checkCtx 0].take 4)).cancelled
          = true →
      (runMachine (fun d => if d = 10 then .fail 0 3 else .ok 4) false true [⟨1, 10⟩, ⟨2, 20⟩] 1 0
        ([Action.feedHand 0, .checkCtx 0, .runOp 0, .feedHand 0, .checkCtx 0].take 4)).workers.get? 0
          = some (.hasJob ⟨2, 20⟩) →
      (step (fun d => if d = 10 then .fail 0 3 else .ok 4) false true
        (runMachine (fun d => if d = 10 then .fail 0 3 else .ok 4) false true [⟨1, 10⟩, ⟨2, 20⟩] 1 0
          ([Action.feedHand 0, .checkCtx 0, .runOp 0, .feedHand 0, .checkCtx 0].take 4))
        (.checkCtx 0)).out =
        (runMachine (fun d => if d = 10 then .fail 0 3 else .ok 4) false true [⟨1, 10⟩, ⟨2, 20⟩] 1 0
          ([Action.feedHand 0, .checkCtx 0, .runOp 0, .feedHand 0, .checkCtx 0].take 4)).out ++
          [⟨(2 : Nat), 0, some WErr.skipped⟩] ∧
      (step (fun d => if d = 10 then .fail 0 3 else .ok 4) false true
        (runMachine (fun d => if d = 10 then .fail 0 3 else .ok 4) false true [⟨1, 10⟩, ⟨2, 20⟩] 1 0
          ([Action.feedHand 0, .checkCtx 0, .runOp 0, .feedHand 0, .checkCtx 0].take 4))
        (.checkCtx 0)).invocations =
        (runMachine (fun d => if d = 10 then .fail 0 3 else .ok 4) false true [⟨1, 10⟩, ⟨2, 20⟩] 1 0
          ([Action.feedHand 0, .checkCtx 0, .runOp 0, .feedHand 0, .checkCtx 0].take 4)).invocations)) :=
  ⟨by decide,
    c7_stop_on_error_cooperative [⟨1, 10⟩, ⟨2, 20⟩] 1 0
      (fun d => if d = 10 then .fail 0 3 else .ok 4) false
      [Action.feedHand 0, .checkCtx 0, .runOp 0, .feedHand 0, .checkCtx 0] 4 0 ⟨2, 20⟩
      (by decide)⟩

end Worker

namespace Cryptoutil

/-- C10: key verification round-trips key derivation: for every password,
salt, and parameter tuple with `keyLen > 0` (bytes being bytes, the
external `argon2.IDKey` output is below 256), `CompareKey` on the key just
derived by `DeriveKey` returns `true` — derivation is deterministic and its
base64 output always decodes back to the same key bytes. -/
theorem c10_compare_derive_roundtrip
    (idKey : List Nat → List Nat → Nat → Nat → Nat → Nat → List Nat)
    (password salt : List Nat) (time memory threads keyLen : Nat)
    (hkl : 0 < keyLen)
    (hbytes : ∀ b ∈ idKey password (saltBytesOf salt) time memory threads keyLen, b < 256) :
    CompareKey idKey password salt
      (DeriveKey idKey password salt time memory threads keyLen)
      time memory threads keyLen = true := by
  unfold CompareKey DeriveKey
  rw [if_neg (Nat.pos_iff_ne_zero.mp hkl)]
  simp only [b64_roundtrip _ hbytes]
  simp [constantTimeCompare_self]

/-- C10 witness at a concrete two-byte key. -/
theorem c10_compare_derive_roundtrip_witness :
    0 < 2 ∧
    (∀ b ∈ (fun _ _ _ _ _ kl => List.replicate kl 9)
        ([97] : List Nat) (saltBytesOf [98]) 1 1 1 2, b < 256) ∧
    CompareKey (fun _ _ _ _ _ kl => List.replicate kl 9) [97] [98]
      (DeriveKey (fun _ _ _ _ _ kl => List.replicate kl 9) [97] [98] 1 1 1 2) 1 1 1 2 = true :=
  ⟨by decide, by decide,
    c10_compare_derive_roundtrip (fun _ _ _ _ _ kl => List.replicate kl 9) [97] [98] 1 1 1 2
      (by decide) (by decide)⟩

end Cryptoutil

namespace Worker

/-- C2 witness at a concrete batch with a repeated identifier. -/
theorem c2_duplicate_ids_reject_batch_witness :
    (¬ (([⟨1, 0⟩, ⟨1, 1⟩] : List Job).map Job.id).Nodup) ∧
    (∃ d,
      (runFull false [⟨1, 0⟩, ⟨1, 1⟩] ⟨0, 0, 0, false⟩ (fun _ => .ok 0) false 0 []).out =
        ([⟨1, 0⟩, ⟨1, 1⟩] : List Job).map (fun j => ⟨j.id, 0, some (.dupId d)⟩) ∧
      (runFull false [⟨1, 0⟩, ⟨1, 1⟩] ⟨0, 0, 0, false⟩ (fun _ => .ok 0) false 0 []).closed = true ∧
      (runFull false [⟨1, 0⟩, ⟨1, 1⟩] ⟨0, 0, 0, false⟩ (fun _ => .ok 0) false 0 []).invocations = 0 ∧
      (runFull false [⟨1, 0⟩, ⟨1, 1⟩] ⟨0, 0, 0, false⟩ (fun _ => .ok 0) false 0 []).workersSpawned = 0 ∧
      (runFull false [⟨1, 0⟩, ⟨1, 1⟩] ⟨0, 0, 0, false⟩ (fun _ => .ok 0) false 0 []).feedersSpawned = 0 ∧
      (runFull false [⟨1, 0⟩, ⟨1, 1⟩] ⟨0, 0, 0, false⟩ (fun _ => .ok 0) false 0 []).out.length =
        ([⟨1, 0⟩, ⟨1, 1⟩] : List Job).length ∧
      ∀ r ∈ (runFull false [⟨1, 0⟩, ⟨1, 1⟩] ⟨0, 0, 0, false⟩ (fun _ => .ok 0) false 0 []).out,
        r.err = some (.dupId d)) :=
  ⟨by decide,
    c2_duplicate_ids_reject_batch false [⟨1, 0⟩, ⟨1, 1⟩] ⟨0, 0, 0, false⟩ (fun _ => .ok 0)
      false 0 [] (by decide)⟩

/-- C5 witness at a concrete two-job batch under a cancelled parent. -/
theorem c5_cancelled_parent_skips_all_witness :
    (([⟨1, 0⟩, ⟨2, 0⟩] : List Job).map Job.id).Nodup ∧
    (([⟨1, 0⟩, ⟨2, 0⟩] : List Job) ≠ []) ∧
    ((runFull true [⟨1, 0⟩, ⟨2, 0⟩] ⟨0, 0, 0, false⟩ (fun _ => .ok 0) false 0 []).out =
        ([⟨1, 0⟩, ⟨2, 0⟩] : List Job).map (fun j => ⟨j.id, 0, some .skipped⟩) ∧
     (runFull true [⟨1, 0⟩, ⟨2, 0⟩] ⟨0, 0, 0, false⟩ (fun _ => .ok 0) false 0 []).closed = true ∧
     (runFull true [⟨1, 0⟩, ⟨2, 0⟩] ⟨0, 0, 0, false⟩ (fun _ => .ok 0) false 0 []).invocations = 0 ∧
     (runFull true [⟨1, 0⟩, ⟨2, 0⟩] ⟨0, 0, 0, false⟩ (fun _ => .ok 0) false 0 []).workersSpawned = 0 ∧
     (runFull true [⟨1, 0⟩, ⟨2, 0⟩] ⟨0, 0, 0, false⟩ (fun _ => .ok 0) false 0 []).feedersSpawned = 0 ∧
     (runFull true [⟨1, 0⟩, ⟨2, 0⟩] ⟨0, 0, 0, false⟩ (fun _ => .ok 0) false 0 []).out.length =
       ([⟨1, 0⟩, ⟨2, 0⟩] : List Job).length) :=
  ⟨by decide, by decide,
    c5_cancelled_parent_skips_all [⟨1, 0⟩, ⟨2, 0⟩] ⟨0, 0, 0, false⟩ (fun _ => .ok 0) false 0 []
      (by decide) (by decide)⟩

end Worker
